import Mathlib

/-! AMP ray tracer kernels (`RayTracing/render.h`): embedding and verified properties

The kernels of `render.h` are templates over a scalar type `fp_t` (instantiated with
`float` or `double`).  The embedding below fixes one scalar model:

* finite values are rationals; overflow to infinity and the sign of zero are not
  modelled;
* the three non-finite IEEE 754 values (`+inf`, `-inf`, `NaN`) are values of the type, with
  the IEEE rules for `+ - * / <`.  They are needed because `scene_storage::intersect`
  itself computes `1.0f / z` with `z = 0.0f` and compares distances against it;
* the per-pixel kernels, whose results depend on how each operation is rounded, round
  every scalar operation with a rounding function that is a parameter, and their
  properties are proved for every rounding that is monotone and exact on the integers of
  at most 24 bits (scaled by a power of two), as the roundings of `float` and `double`
  are;
* the geometry and material registries and the integrator `reflection` are embedded with
  unrounded operations: what is proved of them rests on comparisons, on the control flow
  and on identities that floating-point arithmetic satisfies exactly (`x * 1 = x`,
  `0 + x = x`, `x * 0 = 0` for a finite `x`, commutativity);
* where a property depends on the value of a rounded sum or product (the range of the
  colour returned, the length of the bounce direction), it is stated of
  `reflection_rounded` and `bounce_direction`, the integrator and its bounce direction
  with every operation rounded; `reflection_rounded` with the rounding `id` is
  `reflection`.

Machine `int`s are unbounded integers (signed overflow is undefined behaviour in the
source); `unsigned int` arithmetic is taken modulo `2 ^ 32`.

Headers that `render.h` includes but that are not part of the verified file
(`ampvectors.h`, `raycommon.h`, `geometry.h`, and `direct3d::saturate` of the C++ AMP
library) are modelled from the specification, each such definition says so.
-/

namespace RayTracing

/-! ## The scalar type -/

/-- Scalar values of the templates (`fp_t`): an exact rational, or one of the non-finite
IEEE 754 values. -/
inductive fp_t where
  | fin (q : ℚ)
  | pinf
  | ninf
  | nan
deriving DecidableEq

namespace fp_t

instance : Inhabited fp_t := ⟨fin 0⟩

instance (n : Nat) : OfNat fp_t n := ⟨fin n⟩

/-- Conversion `static_cast<fp_t>(int)`. -/
def ofInt (i : Int) : fp_t := fin i

/-- Unary minus. -/
def neg : fp_t → fp_t
  | fin a => fin (-a)
  | pinf => ninf
  | ninf => pinf
  | nan => nan

/-- Addition with the IEEE rules for the non-finite values. -/
def add : fp_t → fp_t → fp_t
  | fin a, fin b => fin (a + b)
  | fin _, pinf => pinf
  | fin _, ninf => ninf
  | pinf, fin _ => pinf
  | ninf, fin _ => ninf
  | pinf, pinf => pinf
  | ninf, ninf => ninf
  | pinf, ninf => nan
  | ninf, pinf => nan
  | nan, _ => nan
  | _, nan => nan

/-- Subtraction `a - b = a + (-b)`. -/
def sub (a b : fp_t) : fp_t := add a (neg b)

/-- The product of an infinity of sign `pos` with the finite value `a`. -/
def mulInf (pos : Bool) (a : ℚ) : fp_t :=
  if a = 0 then nan else if (0 < a) = pos then pinf else ninf

/-- Multiplication with the IEEE rules for the non-finite values. -/
def mul : fp_t → fp_t → fp_t
  | fin a, fin b => fin (a * b)
  | fin a, pinf => mulInf true a
  | fin a, ninf => mulInf false a
  | pinf, fin b => mulInf true b
  | ninf, fin b => mulInf false b
  | pinf, pinf => pinf
  | ninf, ninf => pinf
  | pinf, ninf => ninf
  | ninf, pinf => ninf
  | nan, _ => nan
  | _, nan => nan

/-- Division with the IEEE rules; a zero divisor is the positive zero. -/
def div : fp_t → fp_t → fp_t
  | fin a, fin b =>
    if b = 0 then (if a = 0 then nan else if 0 < a then pinf else ninf) else fin (a / b)
  | fin _, pinf => fin 0
  | fin _, ninf => fin 0
  | pinf, fin b => if 0 ≤ b then pinf else ninf
  | ninf, fin b => if 0 ≤ b then ninf else pinf
  | pinf, pinf => nan
  | pinf, ninf => nan
  | ninf, pinf => nan
  | ninf, ninf => nan
  | nan, _ => nan
  | _, nan => nan

/-- Comparison `a < b`: false as soon as one side is `NaN`. -/
def lt : fp_t → fp_t → Bool
  | fin a, fin b => decide (a < b)
  | fin _, pinf => true
  | ninf, fin _ => true
  | ninf, pinf => true
  | _, _ => false

/-- Comparison `a <= b`: false as soon as one side is `NaN`. -/
def le : fp_t → fp_t → Bool
  | fin a, fin b => decide (a ≤ b)
  | fin _, pinf => true
  | ninf, fin _ => true
  | ninf, pinf => true
  | pinf, pinf => true
  | ninf, ninf => true
  | _, _ => false

instance : Neg fp_t := ⟨neg⟩
instance : Add fp_t := ⟨add⟩
instance : Sub fp_t := ⟨sub⟩
instance : Mul fp_t := ⟨mul⟩
instance : Div fp_t := ⟨div⟩
instance : LT fp_t := ⟨fun a b => lt a b = true⟩
instance : LE fp_t := ⟨fun a b => le a b = true⟩
instance (a b : fp_t) : Decidable (a < b) := inferInstanceAs (Decidable (lt a b = true))
instance (a b : fp_t) : Decidable (a ≤ b) := inferInstanceAs (Decidable (le a b = true))

/-- A value that is a number: finite, not an infinity and not `NaN`. -/
def isFinite : fp_t → Bool
  | fin _ => true
  | _ => false

end fp_t

/-! ## Vectors, colours, rays and hit results -/

/-- Modelled from the spec: `vector3<fp_t>` of `ampvectors.h` (not part of the verified
file), three scalar components with the dot product, the product with a scalar and the
component-wise sum that `reflection` uses. -/
structure vector3 where
  x : fp_t
  y : fp_t
  z : fp_t
deriving DecidableEq

namespace vector3

/-- Dot product `a.dot(b)`. -/
def dot (a b : vector3) : fp_t := a.x * b.x + a.y * b.y + a.z * b.z

/-- Product `v * s` of a vector with a scalar. -/
def scale (v : vector3) (s : fp_t) : vector3 := ⟨v.x * s, v.y * s, v.z * s⟩

/-- Component-wise sum `a + b`. -/
def add (a b : vector3) : vector3 := ⟨a.x + b.x, a.y + b.y, a.z + b.z⟩

/-- Component-wise difference `a - b`. -/
def sub (a b : vector3) : vector3 := ⟨a.x - b.x, a.y - b.y, a.z - b.z⟩

/-- Product `s * v` of a scalar with a vector. -/
def smul (s : fp_t) (v : vector3) : vector3 := ⟨s * v.x, s * v.y, s * v.z⟩

instance : HMul vector3 fp_t vector3 := ⟨scale⟩
instance : HMul fp_t vector3 vector3 := ⟨smul⟩
instance : Add vector3 := ⟨add⟩
instance : Sub vector3 := ⟨sub⟩

end vector3

/-- Modelled from the spec: `color<fp_t>` (declared outside the verified file), a
three-channel scalar that supports the product with a scalar and the channel-wise sum. -/
structure color where
  r : fp_t
  g : fp_t
  b : fp_t
deriving DecidableEq

namespace color

/-- Product `c * s` of a colour with a scalar. -/
def scale (c : color) (s : fp_t) : color := ⟨c.r * s, c.g * s, c.b * s⟩

/-- Channel-wise sum `a + b`. -/
def add (a b : color) : color := ⟨a.r + b.r, a.g + b.g, a.b + b.b⟩

instance : HMul color fp_t color := ⟨scale⟩
instance : Add color := ⟨add⟩

/-- The colour `color<fp_t>(0.0f, 0.0f, 0.0f)`. -/
def black : color := ⟨0, 0, 0⟩

/-- All three channels are numbers (no infinity, no `NaN`). -/
def isFinite (c : color) : Bool := c.r.isFinite && c.g.isFinite && c.b.isFinite

end color

/-- Modelled from the spec: `ray<fp_t>` of `raycommon.h`, an origin and a direction;
`ray<fp_t>(o, d)` stores both unchanged. -/
structure ray where
  origin : vector3
  direction : vector3
deriving DecidableEq

/-- Modelled from the spec: `intersect_result<fp_t>` of `raycommon.h`, the HitResult
record `{ is_hit, distance, position, normal, material }`. -/
structure intersect_result where
  is_hit : Bool
  distance : fp_t
  position : vector3
  normal : vector3
  material : Int
deriving DecidableEq

/-- Modelled from the spec: the default-constructed `intersect_result<fp_t>` (its
constructor is in `raycommon.h`), the "no hit, distance = +infinity" result; the spec
fixes no other field, they are taken as zero. -/
def intersect_result.init : intersect_result :=
  { is_hit := false, distance := fp_t.pinf, position := ⟨0, 0, 0⟩, normal := ⟨0, 0, 0⟩,
    material := 0 }

/-! ## The geometry registry -/

/-- A type-erased geometry slot, seen through the one behaviour the registry uses:
`g->intersect(ray)`. -/
structure geometry where
  intersect : ray → intersect_result

/-- The geometry registry `scene_storage<fp_t>`: the slot array `geometries`, in index
order.  (`geometry_count` is the length of the array; it is `3` in the source.) -/
structure scene_storage where
  geometries : List geometry

namespace scene_storage

/-- Number of slots of the registry. -/
def geometry_count (s : scene_storage) : Nat := s.geometries.length

/-- The scan `for (int i = 0; i < geometry_count; i++)` of `scene_storage::intersect`
over the slots that remain, from the running `min_dist` and `min_result`. -/
def intersect_scan (r : ray) : List geometry → fp_t → intersect_result → intersect_result
  | [], _, min_result => min_result
  | g :: gs, min_dist, min_result =>
    let result := g.intersect r
    if result.is_hit = true ∧ result.distance < min_dist then
      intersect_scan r gs result.distance result
    else
      intersect_scan r gs min_dist min_result

/-- The nearest hit `scene_storage::intersect(ray)`. -/
def intersect (s : scene_storage) (r : ray) : intersect_result :=
  let z : fp_t := 0
  let min_dist : fp_t := 1 / z
  intersect_scan r s.geometries min_dist intersect_result.init

end scene_storage

/-! ## The material registry -/

/-- A type-erased material slot, seen through the behaviour the registry uses: the
`reflectiveness` field and `p->sample(ray, position, normal)`. -/
structure material where
  reflectiveness : fp_t
  sample : ray → vector3 → vector3 → color

/-- The material registry `material_storage<fp_t>`: the slot array read as
`materials[material_id]`.  The source does not check the index and an index outside the
array is undefined behaviour, so the array is taken as the function from the index to the
slot. -/
structure material_storage where
  materials : Int → material

namespace material_storage

/-- Shading `material_storage::sample(material_id, ray, position, normal)`. -/
def sample (t : material_storage) (material_id : Int) (i_ray : ray)
    (position normal : vector3) : color :=
  (t.materials material_id).sample i_ray position normal

/-- Reflectiveness `material_storage::get_reflectiveness(material_id)`. -/
def get_reflectiveness (t : material_storage) (material_id : Int) : fp_t :=
  (t.materials material_id).reflectiveness

end material_storage

/-! ## The reflective shading integrator -/

/-- A call that `reflection` makes on one of the two registries (recorded in call order,
to state which calls a run makes and how many). -/
inductive call where
  | intersect (i_ray : ray)
  | get_reflectiveness (material_id : Int)
  | sample (material_id : Int) (i_ray : ray) (position normal : vector3)
deriving DecidableEq

/-- Whether a recorded call is a `scene.intersect`. -/
def call.is_intersect : call → Bool
  | .intersect _ => true
  | _ => false

/-- The loop `for (int i = 0; i < max_reflect; i++)` of `reflection`, from the loop counter
`i` and the current values of `i_ray`, `final_color` and `reflectiveness`; `calls` is the
record of the registry calls made so far.  Returns the final colour and the record. -/
def reflection_loop (scene : scene_storage) (materials : material_storage)
    (max_reflect : Int) (i : Int) (i_ray : ray) (final_color : color)
    (reflectiveness : fp_t) (calls : List call) : color × List call :=
  if i < max_reflect then
    let r := scene.intersect i_ray
    let calls1 := calls ++ [call.intersect i_ray]
    if r.is_hit = true then
      let ref_c := materials.get_reflectiveness r.material
      let c := materials.sample r.material i_ray r.position r.normal
      let calls2 := calls1 ++
        [call.get_reflectiveness r.material, call.sample r.material i_ray r.position r.normal]
      let c1 := c * (1 - ref_c)
      let final_color1 := final_color + (c1 * reflectiveness)
      let reflectiveness1 := reflectiveness * ref_c
      if reflectiveness1 > 0 then
        let r1 := (r.normal * (-2 * r.normal.dot i_ray.direction)) + i_ray.direction
        reflection_loop scene materials max_reflect (i + 1) (ray.mk r.position r1)
          final_color1 reflectiveness1 calls2
      else
        (final_color1, calls2)
    else
      (final_color, calls1)
  else
    (final_color, calls)
termination_by (max_reflect - i).toNat
decreasing_by omega

/-- The run of `reflection(i_ray, scene, materials, max_reflect)`: the colour it returns
and the registry calls it makes. -/
def reflection_run (i_ray : ray) (scene : scene_storage) (materials : material_storage)
    (max_reflect : Int) : color × List call :=
  reflection_loop scene materials max_reflect 0 i_ray (color.mk 0 0 0) 1 []

/-- The colour `reflection(i_ray, scene, materials, max_reflect)`. -/
def reflection (i_ray : ray) (scene : scene_storage) (materials : material_storage)
    (max_reflect : Int) : color :=
  (reflection_run i_ray scene materials max_reflect).1

/-- Number of `scene.intersect` calls of a run, which is its number of loop iterations
(every iteration starts with exactly one such call). -/
def intersect_calls (calls : List call) : Nat := calls.countP call.is_intersect

/-! ## The per-pixel kernels

The kernels convert integers to scalars, divide and scale, and truncate the result to an
integer, so what they write depends on how each operation is rounded.  Their embedding
therefore rounds the exact result of every scalar operation with a function `rnd` (the
rounding of `fp_t`; `rndf` is the rounding of `float`, which `render_depth` uses for its
own arithmetic).  The overflow of a finite result to an infinity is not modelled: it
cannot occur in `sx` and `sy`; in `render_depth` it can occur only where a quotient above
the range of `float` is converted, and `saturate` sends that quotient to 1 whether it is
finite or infinite; in `render_normal` it needs a normal component near the largest finite
scalar. -/

/-- What is assumed of the rounding `rnd` of a binary floating-point format, which sends
the exact result of an operation to the value that is stored: it is monotone, and it
leaves unchanged every number `m * 2 ^ e` with at most 24 significant bits
(`|m| <= 2 ^ 24`) and `-149 <= e <= 103`.  Both hold of IEEE 754 binary32 and binary64
(`float`, `double`) in every rounding mode, and of exact arithmetic (`rnd = id`);
`round32` below is the rounding of `float`, and `is_rounding_round32` proves both of it. -/
def is_rounding (rnd : ℚ → ℚ) : Prop :=
  Monotone rnd ∧
    ∀ m e : Int, |m| ≤ 2 ^ 24 → -149 ≤ e → e ≤ 103 →
      rnd ((m : ℚ) * (2 : ℚ) ^ e) = (m : ℚ) * (2 : ℚ) ^ e

/-- The scalar that is stored for the exact result `a` of an operation. -/
def fp_t.round (rnd : ℚ → ℚ) : fp_t → fp_t
  | fp_t.fin q => fp_t.fin (rnd q)
  | fp_t.pinf => fp_t.pinf
  | fp_t.ninf => fp_t.ninf
  | fp_t.nan => fp_t.nan

/-- The integer nearest to `q`, the even one of the two when `q` lies half way. -/
def round_even (q : ℚ) : Int :=
  if 2 * (q - ⌊q⌋) < 1 then ⌊q⌋
  else if 1 < 2 * (q - ⌊q⌋) then ⌊q⌋ + 1
  else if ⌊q⌋ % 2 = 0 then ⌊q⌋ else ⌊q⌋ + 1

/-- The exponent of the unit in the last place of binary32 at `q`: 24 significant bits,
least exponent `-126` (below it the values are subnormal). -/
def ulp_exp32 (q : ℚ) : Int := max (Int.log 2 |q|) (-126) - 23

/-- Rounding to binary32 (`float`), to nearest, ties to even: the multiple of the unit in
the last place that is nearest to `q`.  A result beyond the largest finite `float` is not
sent to an infinity (the exponent is not bounded above). -/
def round32 (q : ℚ) : ℚ := (round_even (q / 2 ^ ulp_exp32 q) : ℚ) * 2 ^ ulp_exp32 q

/-- The horizontal shift `const int xshift = (width - edge) / 2` of the render kernels
(`edge` is `640`, or `640 * aa_factor` in `render_reflection`); `/` on `int` truncates. -/
def xshift (width edge : Int) : Int := (width - edge).tdiv 2

/-- The view-plane abscissa `sx = static_cast<fp_t>(x - xshift) / edge` of pixel column
`x`: both integers are converted to `fp_t`, then divided. -/
def sx (rnd : ℚ → ℚ) (x xshift edge : Int) : fp_t :=
  fp_t.round rnd
    (fp_t.round rnd (fp_t.ofInt (x - xshift)) / fp_t.round rnd (fp_t.ofInt edge))

/-- The pixel value `0xff000000 | (r << 16) | (g << 8) | b` written by the render kernels,
on `unsigned int` (32 bits) channel values. -/
def pack_pixel (r g b : Nat) : Nat :=
  0xff000000 ||| ((r <<< 16) % 2 ^ 32) ||| ((g <<< 8) % 2 ^ 32) ||| (b % 2 ^ 32)

/-- The vertical shift `const int yshift = (height - edge) / 2` of the render kernels. -/
def yshift (height edge : Int) : Int := (height - edge).tdiv 2

/-- The view-plane ordinate `sy = 1.0f - static_cast<fp_t>(y - yshift) / edge` of pixel row
`y`. -/
def sy (rnd : ℚ → ℚ) (y yshift edge : Int) : fp_t :=
  fp_t.round rnd
    (1 - fp_t.round rnd
      (fp_t.round rnd (fp_t.ofInt (y - yshift)) / fp_t.round rnd (fp_t.ofInt edge)))

/-- Modelled from the spec: `direct3d::saturate` of the C++ AMP library (`amp.h`), the
`clamp01` of the specification: a value below 0 gives 0, a value above 1 gives 1, and `NaN`
gives 0 (the Direct3D rule for `saturate`). -/
def saturate : fp_t → fp_t
  | fp_t.fin q => if q < 0 then fp_t.fin 0 else if 1 < q then fp_t.fin 1 else fp_t.fin q
  | fp_t.pinf => fp_t.fin 1
  | fp_t.ninf => fp_t.fin 0
  | fp_t.nan => fp_t.fin 0

/-- The conversion `static_cast<unsigned int>(v)`: truncation toward zero, on 32 bits.  The
conversion of a value that is not finite, is `-1` or less, or is `2 ^ 32` or more is
undefined behaviour in the source; here a negative or non-finite value gives 0 and a large
one is reduced modulo `2 ^ 32`. -/
def to_uint : fp_t → Nat
  | fp_t.fin q => Int.toNat ⌊q⌋ % 2 ^ 32
  | _ => 0

/-- Modelled from the spec: `perspective_camera<fp_t>` (declared outside the verified
file), seen through `camera.generate_ray(sx, sy)`. -/
structure perspective_camera where
  generate_ray : fp_t → fp_t → ray

/-- The channel values `(r, g, b)` of `render_depth` for the hit result `ir` of the pixel's
ray (`max_depth = 20.0f`): the quotient `ir.distance / max_depth` is taken in `fp_t`,
converted to `float`, and `255.0f - 255.0f * saturate(...)` is `float` arithmetic. -/
def render_depth_rgb (rnd rndf : ℚ → ℚ) (ir : intersect_result) : Nat × Nat × Nat :=
  if ir.is_hit = true then
    let depth : fp_t :=
      fp_t.round rndf
        (255 - fp_t.round rndf
          (255 * saturate (fp_t.round rndf (fp_t.round rnd (ir.distance / 20)))))
    let intdepth := to_uint depth
    (intdepth, intdepth, intdepth)
  else
    (0, 0, 0)

/-- The value that `render_depth` writes at pixel `(x, y)` of a `width` by `height` surface;
the sphere `scene` and the `camera` are built from types declared outside the verified
file and are parameters. -/
def render_depth (rnd rndf : ℚ → ℚ) (camera : perspective_camera) (scene : geometry)
    (width height x y : Int) : Nat :=
  let ir := scene.intersect
    (camera.generate_ray (sx rnd x (xshift width 640) 640) (sy rnd y (yshift height 640) 640))
  pack_pixel (render_depth_rgb rnd rndf ir).1 (render_depth_rgb rnd rndf ir).2.1
    (render_depth_rgb rnd rndf ir).2.2

/-- The channel values `(r, g, b)` of `render_normal` for the hit result `ir` of the
pixel's ray: `static_cast<unsigned int>((ir.normal.x + 1) * 128)` and so on, in `fp_t`
arithmetic. -/
def render_normal_rgb (rnd : ℚ → ℚ) (ir : intersect_result) : Nat × Nat × Nat :=
  if ir.is_hit = true then
    (to_uint (fp_t.round rnd (fp_t.round rnd (ir.normal.x + 1) * 128)),
      to_uint (fp_t.round rnd (fp_t.round rnd (ir.normal.y + 1) * 128)),
      to_uint (fp_t.round rnd (fp_t.round rnd (ir.normal.z + 1) * 128)))
  else
    (0, 0, 0)

/-- The value that `render_normal` writes at pixel `(x, y)`; `scene` and `camera` are
parameters as in `render_depth`. -/
def render_normal (rnd : ℚ → ℚ) (camera : perspective_camera) (scene : geometry)
    (width height x y : Int) : Nat :=
  let ir := scene.intersect
    (camera.generate_ray (sx rnd x (xshift width 640) 640) (sy rnd y (yshift height 640) 640))
  pack_pixel (render_normal_rgb rnd ir).1 (render_normal_rgb rnd ir).2.1
    (render_normal_rgb rnd ir).2.2

/-! ## The integrator with rounded operations

`reflection` once more, with the result of every scalar operation rounded by `rnd` as the
kernels above are: the sums and products of the colour and vector operators of
`ampvectors.h` are rounded one operation at a time, left to right (no fused
multiply-add).  With `rnd = id` this is `reflection`. -/

/-- Modelled from the spec: the product `c * s` of a colour with a scalar, each channel's
product rounded. -/
def color.rscale (rnd : ℚ → ℚ) (c : color) (s : fp_t) : color :=
  ⟨fp_t.round rnd (c.r * s), fp_t.round rnd (c.g * s), fp_t.round rnd (c.b * s)⟩

/-- Modelled from the spec: the channel-wise sum `a + b`, each channel's sum rounded. -/
def color.radd (rnd : ℚ → ℚ) (a b : color) : color :=
  ⟨fp_t.round rnd (a.r + b.r), fp_t.round rnd (a.g + b.g), fp_t.round rnd (a.b + b.b)⟩

/-- Modelled from the spec: the dot product `a.dot(b)`, the three products and the two
sums rounded, summed left to right. -/
def vector3.rdot (rnd : ℚ → ℚ) (a b : vector3) : fp_t :=
  fp_t.round rnd
    (fp_t.round rnd (fp_t.round rnd (a.x * b.x) + fp_t.round rnd (a.y * b.y)) +
      fp_t.round rnd (a.z * b.z))

/-- Modelled from the spec: the product `v * s` of a vector with a scalar, each product
rounded. -/
def vector3.rscale (rnd : ℚ → ℚ) (v : vector3) (s : fp_t) : vector3 :=
  ⟨fp_t.round rnd (v.x * s), fp_t.round rnd (v.y * s), fp_t.round rnd (v.z * s)⟩

/-- Modelled from the spec: the component-wise sum `a + b`, each sum rounded. -/
def vector3.radd (rnd : ℚ → ℚ) (a b : vector3) : vector3 :=
  ⟨fp_t.round rnd (a.x + b.x), fp_t.round rnd (a.y + b.y), fp_t.round rnd (a.z + b.z)⟩

/-- The bounce direction
`r1 = (r.normal * (-2.0f * r.normal.dot(i_ray.direction))) + i_ray.direction` of
`reflection`, every operation rounded. -/
def bounce_direction (rnd : ℚ → ℚ) (normal direction : vector3) : vector3 :=
  vector3.radd rnd
    (vector3.rscale rnd normal (fp_t.round rnd (-2 * vector3.rdot rnd normal direction)))
    direction

/-- The loop of `reflection` with every operation rounded, from the loop counter `i` and
the current values of `i_ray`, `final_color` and `reflectiveness`. -/
def reflection_loop_rounded (rnd : ℚ → ℚ) (scene : scene_storage)
    (materials : material_storage) (max_reflect : Int) (i : Int) (i_ray : ray)
    (final_color : color) (reflectiveness : fp_t) : color :=
  if i < max_reflect then
    let r := scene.intersect i_ray
    if r.is_hit = true then
      let ref_c := materials.get_reflectiveness r.material
      let c := materials.sample r.material i_ray r.position r.normal
      let c1 := color.rscale rnd c (fp_t.round rnd (1 - ref_c))
      let final_color1 := color.radd rnd final_color (color.rscale rnd c1 reflectiveness)
      let reflectiveness1 := fp_t.round rnd (reflectiveness * ref_c)
      if reflectiveness1 > 0 then
        reflection_loop_rounded rnd scene materials max_reflect (i + 1)
          (ray.mk r.position (bounce_direction rnd r.normal i_ray.direction))
          final_color1 reflectiveness1
      else
        final_color1
    else
      final_color
  else
    final_color
termination_by (max_reflect - i).toNat
decreasing_by omega

/-- The colour `reflection(i_ray, scene, materials, max_reflect)` with every operation
rounded. -/
def reflection_rounded (rnd : ℚ → ℚ) (i_ray : ray) (scene : scene_storage)
    (materials : material_storage) (max_reflect : Int) : color :=
  reflection_loop_rounded rnd scene materials max_reflect 0 i_ray (color.mk 0 0 0) 1


/-- The number of material slots, `material_count = 3`. -/
def material_storage.material_count : Int := 3

/-- The scene built by the constructor `scene_storage()`: slot 0 and slot 1 are spheres
with materials 0 and 1, slot 2 is the plane with material 2.  The concrete types `sphere`
and `plane` are declared in `geometry.h`, outside the verified file; their constructors
(centre and radius, or normal and offset, then the material id) are parameters. -/
def scene_storage.construct (sphere plane : vector3 → fp_t → Int → geometry) :
    scene_storage :=
  ⟨[sphere ⟨-15, 15, -10⟩ 15 0, sphere ⟨12, 10, -10⟩ 10 1, plane ⟨0, 1, 0⟩ 0 2]⟩

/-! ## The integrator in closed form

The definitions of this section follow the words of the specification (the bounce path and
the weighted sum over its bounces); they are compared with `reflection` below. -/

/-- The mirror direction `d - 2 (n . d) n` of direction `d` about the normal `n`. -/
def mirror (d n : vector3) : vector3 := d - ((2 : fp_t) * n.dot d) * n

/-- The k-th ray of the bounce path: `ray_0` is the initial ray and `ray_(k+1)` starts at
the position of the nearest hit of `ray_k`, along the mirror direction. -/
def bounce_ray (scene : scene_storage) (i_ray : ray) : Nat → ray
  | 0 => i_ray
  | k + 1 =>
    ray.mk (scene.intersect (bounce_ray scene i_ray k)).position
      (mirror (bounce_ray scene i_ray k).direction
        (scene.intersect (bounce_ray scene i_ray k)).normal)

/-- The nearest hit `hit_k` of the k-th ray. -/
def bounce_hit (scene : scene_storage) (i_ray : ray) (k : Nat) : intersect_result :=
  scene.intersect (bounce_ray scene i_ray k)

/-- The reflectiveness `r_k` of the material hit by the k-th ray. -/
def bounce_r (scene : scene_storage) (materials : material_storage) (i_ray : ray)
    (k : Nat) : fp_t :=
  materials.get_reflectiveness (bounce_hit scene i_ray k).material

/-- The shading `sample_k` of the k-th hit. -/
def bounce_sample (scene : scene_storage) (materials : material_storage) (i_ray : ray)
    (k : Nat) : color :=
  materials.sample (bounce_hit scene i_ray k).material (bounce_ray scene i_ray k)
    (bounce_hit scene i_ray k).position (bounce_hit scene i_ray k).normal

/-- The product `r_0 * ... * r_(k-1)` (`1` for `k = 0`). -/
def bounce_product (scene : scene_storage) (materials : material_storage) (i_ray : ray) :
    Nat → fp_t
  | 0 => 1
  | k + 1 => bounce_product scene materials i_ray k * bounce_r scene materials i_ray k

/-- The contribution `sample_k * (1 - r_k) * (r_0 * ... * r_(k-1))` of the k-th bounce. -/
def bounce_term (scene : scene_storage) (materials : material_storage) (i_ray : ray)
    (k : Nat) : color :=
  (bounce_sample scene materials i_ray k * (1 - bounce_r scene materials i_ray k)) *
    bounce_product scene materials i_ray k

/-- The sum of the contributions of the bounces `k = 0 .. m-1` (black for `m = 0`). -/
def bounce_sum (scene : scene_storage) (materials : material_storage) (i_ray : ray) :
    Nat → color
  | 0 => color.mk 0 0 0
  | m + 1 => bounce_sum scene materials i_ray m + bounce_term scene materials i_ray m

/-- The least index below `n` at which `p` holds, and `n` when there is none. -/
def first_index (p : Nat → Bool) : Nat → Nat
  | 0 => 0
  | n + 1 => if first_index p n < n then first_index p n else if p n then n else n + 1

/-- Whether the k-th ray misses the geometry. -/
def bounce_miss (scene : scene_storage) (i_ray : ray) (k : Nat) : Bool :=
  !(bounce_hit scene i_ray k).is_hit

/-- Whether the product `r_0 * ... * r_k` is not greater than 0. -/
def bounce_dead (scene : scene_storage) (materials : material_storage) (i_ray : ray)
    (k : Nat) : Bool :=
  !decide (bounce_product scene materials i_ray (k + 1) > 0)

/-- The number `m` of bounces that are shaded: the least of the bounce limit, the index of
the first miss, and one past the first `k` at which `r_0 * ... * r_k` is not greater
than 0 (a negative bounce limit counts as 0). -/
def bounce_count (scene : scene_storage) (materials : material_storage) (i_ray : ray)
    (max_reflect : Int) : Nat :=
  min max_reflect.toNat
    (min (first_index (bounce_miss scene i_ray) max_reflect.toNat)
      (first_index (bounce_dead scene materials i_ray) max_reflect.toNat + 1))

/-- The number of loop iterations of the closed form: one more than the number of shaded
bounces when the loop ends on a miss below the bounce limit (the iteration that finds the
miss), and the number of shaded bounces otherwise. -/
def bounce_iterations (scene : scene_storage) (materials : material_storage) (i_ray : ray)
    (max_reflect : Int) : Nat :=
  if first_index (bounce_miss scene i_ray) max_reflect.toNat < max_reflect.toNat ∧
      first_index (bounce_miss scene i_ray) max_reflect.toNat <
        first_index (bounce_dead scene materials i_ray) max_reflect.toNat + 1 then
    first_index (bounce_miss scene i_ray) max_reflect.toNat + 1
  else bounce_count scene materials i_ray max_reflect

/-- The colour of the integrator in closed form: the sum over the shaded bounces. -/
def reflection_closed_form (i_ray : ray) (scene : scene_storage)
    (materials : material_storage) (max_reflect : Int) : color :=
  bounce_sum scene materials i_ray (bounce_count scene materials i_ray max_reflect)

/-! ## Concrete inputs used by the examples -/

/-- The ray from the origin along `-z`. -/
def ray0 : ray := ⟨⟨0, 0, 0⟩, ⟨0, 0, -1⟩⟩

/-- A primitive that reports a hit at the given distance for every ray (position and
normal fixed, material `0`). -/
def hit_at (d : fp_t) : geometry :=
  ⟨fun _ => { is_hit := true, distance := d, position := ⟨0, 0, -1⟩, normal := ⟨0, 0, 1⟩,
              material := 0 }⟩

/-- A primitive that reports a miss for every ray, with `distance = 7` left in the result. -/
def miss_7 : geometry :=
  ⟨fun _ => { is_hit := false, distance := 7, position := ⟨0, 0, 0⟩, normal := ⟨0, 0, 0⟩,
              material := 0 }⟩

/-- The registry whose only primitive reports a hit at distance 5 for every ray. -/
def scene_one : scene_storage := ⟨[hit_at 5]⟩

/-- The material registry whose slots all have reflectiveness `r` and sample to `c`. -/
def mats_const (r : fp_t) (c : color) : material_storage :=
  ⟨fun _ => ⟨r, fun _ _ _ => c⟩⟩

/-- A primitive that reports, for every ray, a hit at distance `d` with material `m`. -/
def hit_with (d : fp_t) (m : Int) : geometry :=
  ⟨fun _ => { is_hit := true, distance := d, position := ⟨0, 0, -1⟩, normal := ⟨0, 0, 1⟩,
              material := m }⟩

/-- The hit of the ray through the image centre in the scene of `render_normal` (sphere of
radius 10 centred at (0,10,-10), eye at (0,10,10) looking along `-z`): the front pole
(0,10,0), at distance 10, with the unit normal (0,0,1). -/
def hit_front_pole : intersect_result :=
  { is_hit := true, distance := 10, position := ⟨0, 10, 0⟩, normal := ⟨0, 0, 1⟩,
    material := 0 }

/-- The value `trunc(255 - 255 * clamp01(d / 20))` of the depth visualisation at distance
`d`, in the words of the specification, each operation rounded as the kernel does. -/
def depth_value (rnd rndf : ℚ → ℚ) (d : fp_t) : Nat :=
  to_uint
    (fp_t.round rndf
      (255 - fp_t.round rndf (255 * saturate (fp_t.round rndf (fp_t.round rnd (d / 20))))))

/-- A hit at the distance `10526881 / 2 ^ 27`, the `float` nearest to `20 / 255`. -/
def hit_near : intersect_result :=
  { is_hit := true, distance := fp_t.fin (10526881 / 134217728), position := ⟨0, 10, 0⟩,
    normal := ⟨0, 0, 1⟩, material := 0 }

/-- A primitive that is hit by every ray and tells the bounces apart by the origin of the
ray: material 0 for a ray from `z = 0`, material 1 for a ray from `z = -1`, material 2
otherwise; the hit position is one unit further down. -/
def hit_by_origin : geometry :=
  ⟨fun r =>
    if r.origin.z = 0 then
      { is_hit := true, distance := 1, position := ⟨0, 0, -1⟩, normal := ⟨0, 0, 1⟩,
        material := 0 }
    else if r.origin.z = -1 then
      { is_hit := true, distance := 1, position := ⟨0, 0, -2⟩, normal := ⟨0, 0, 1⟩,
        material := 1 }
    else
      { is_hit := true, distance := 1, position := ⟨0, 0, -3⟩, normal := ⟨0, 0, 1⟩,
        material := 2 }⟩

/-- The registry whose only primitive is `hit_by_origin`. -/
def scene_three : scene_storage := ⟨[hit_by_origin]⟩

/-- Materials that all sample to white `(1, 1, 1)`, with the `float` reflectiveness
`9723457 / 2 ^ 25` (`0x1.28bc82p-2`) in slot 0, `5768599 / 2 ^ 28` (`0x1.60165cp-6`) in
slot 1 and 0 in every other slot. -/
def mats_three : material_storage :=
  ⟨fun id =>
    ⟨if id = 0 then fp_t.fin (9723457 / 33554432)
      else if id = 1 then fp_t.fin (5768599 / 268435456) else 0,
      fun _ _ _ => ⟨1, 1, 1⟩⟩⟩

/-- A primitive built with material `m` that reports a hit at distance `d` for the rays
whose direction has a negative `z`, and answers every other ray with the default
(no hit, material 0) record. -/
def hit_if_down (d : fp_t) (m : Int) : geometry :=
  ⟨fun r =>
    if r.direction.z < 0 then
      { is_hit := true, distance := d, position := ⟨0, 0, -1⟩, normal := ⟨0, 0, 1⟩,
        material := m }
    else intersect_result.init⟩

/-! ## Facts about the scalar model -/

theorem fp_lt_iff (a b : fp_t) : a < b ↔ fp_t.lt a b = true := Iff.rfl

theorem fp_le_iff (a b : fp_t) : a ≤ b ↔ fp_t.le a b = true := Iff.rfl

theorem fp_ofNat_def (n : Nat) [n.AtLeastTwo] : (OfNat.ofNat n : fp_t) = fp_t.fin (OfNat.ofNat n) := by
  show fp_t.fin ((OfNat.ofNat n : Nat) : ℚ) = _
  simp

theorem fp_zero_def : (0 : fp_t) = fp_t.fin 0 := by
  show fp_t.fin ((0 : Nat) : ℚ) = _
  simp

theorem fp_one_def : (1 : fp_t) = fp_t.fin 1 := by
  show fp_t.fin ((1 : Nat) : ℚ) = _
  simp

theorem fp_neg_def (a : fp_t) : -a = fp_t.neg a := rfl

theorem fp_add_def (a b : fp_t) : a + b = fp_t.add a b := rfl

theorem fp_sub_def (a b : fp_t) : a - b = fp_t.add a (fp_t.neg b) := rfl

theorem fp_mul_def (a b : fp_t) : a * b = fp_t.mul a b := rfl

theorem fp_div_def (a b : fp_t) : a / b = fp_t.div a b := rfl

theorem fp_one_div_zero : (1 : fp_t) / (0 : fp_t) = fp_t.pinf := by decide

theorem fp_lt_irrefl (a : fp_t) : ¬ a < a := by
  cases a <;> simp [fp_lt_iff, fp_t.lt]

theorem fp_lt_trans {a b c : fp_t} (h1 : a < b) (h2 : b < c) : a < c := by
  cases a <;> cases b <;> cases c <;> simp_all [fp_lt_iff, fp_t.lt]
  exact lt_trans h1 h2

theorem fp_lt_asymm {a b : fp_t} (h : a < b) : ¬ b < a :=
  fun h2 => fp_lt_irrefl a (fp_lt_trans h h2)

theorem fp_ne_nan_of_lt {a b : fp_t} (h : a < b) : a ≠ fp_t.nan := by
  cases a <;> simp_all [fp_lt_iff, fp_t.lt]

theorem fp_le_of_not_lt {a b : fp_t} (h : ¬ a < b) (ha : a ≠ fp_t.nan) (hb : b ≠ fp_t.nan) :
    b ≤ a := by
  cases a <;> cases b <;> simp_all [fp_lt_iff, fp_le_iff, fp_t.lt, fp_t.le]

theorem fp_mulInf_neg (pos : Bool) (a : ℚ) :
    fp_t.mulInf pos (-a) = fp_t.neg (fp_t.mulInf pos a) := by
  unfold fp_t.mulInf
  rcases lt_trichotomy a 0 with h | h | h
  · have h1 : ¬ a = 0 := ne_of_lt h
    have h2 : ¬ 0 < a := not_lt.mpr (le_of_lt h)
    cases pos <;> simp [h, h1, h2, fp_t.neg]
  · simp [h, fp_t.neg]
  · have h1 : ¬ a = 0 := ne_of_gt h
    have h2 : ¬ a < 0 := not_lt.mpr (le_of_lt h)
    cases pos <;> simp [h, h1, h2, fp_t.neg]

theorem fp_mulInf_not (pos : Bool) (a : ℚ) :
    fp_t.mulInf (!pos) a = fp_t.neg (fp_t.mulInf pos a) := by
  unfold fp_t.mulInf
  by_cases h0 : a = 0
  · simp [h0, fp_t.neg]
  · by_cases h : 0 < a <;> cases pos <;> simp [h0, h, fp_t.neg]

theorem fp_mul_comm (a b : fp_t) : a * b = b * a := by
  cases a <;> cases b <;> simp [fp_mul_def, fp_t.mul, mul_comm]

theorem fp_add_comm (a b : fp_t) : a + b = b + a := by
  cases a <;> cases b <;> simp [fp_add_def, fp_t.add, add_comm]

theorem fp_mul_neg (a b : fp_t) : a * (-b) = -(a * b) := by
  cases a <;> cases b <;>
    simp [fp_mul_def, fp_neg_def, fp_t.mul, fp_t.neg] <;>
    first
      | exact fp_mulInf_not true _
      | exact fp_mulInf_not false _
      | exact fp_mulInf_neg _ _

theorem fp_neg_mul (a b : fp_t) : (-a) * b = -(a * b) := by
  rw [fp_mul_comm, fp_mul_neg, fp_mul_comm]

theorem fp_mirror_component (a s d : fp_t) : a * (-2 * s) + d = d - (2 * s) * a := by
  rw [fp_neg_mul, fp_mul_neg, fp_add_comm, fp_mul_comm a, fp_sub_def, fp_add_def, fp_neg_def]

theorem fp_mul_one (a : fp_t) : a * 1 = a := by
  cases a <;> simp [fp_one_def, fp_mul_def, fp_t.mul, fp_t.mulInf]

theorem fp_one_mul_one : (1 : fp_t) * 1 = 1 := fp_mul_one 1

theorem fp_zero_add (a : fp_t) : 0 + a = a := by
  cases a <;> simp [fp_zero_def, fp_add_def, fp_t.add]

theorem fp_one_sub_zero : (1 : fp_t) - 0 = 1 := by
  simp [fp_one_def, fp_zero_def, fp_sub_def, fp_t.add, fp_t.neg]

theorem fp_one_mul_zero_not_pos : ¬ (1 : fp_t) * 0 > 0 := by
  simp [fp_one_def, fp_zero_def, fp_lt_iff, fp_mul_def, fp_t.mul, fp_t.lt]

theorem fp_one_pos : (1 : fp_t) > 0 := by
  simp [fp_one_def, fp_zero_def, fp_lt_iff, fp_t.lt]

theorem fp_finite_mul_zero (a : fp_t) (h : a.isFinite = true) :
    (a * ((1 : fp_t) - 1)) * 1 = 0 := by
  cases a <;> simp_all [fp_t.isFinite, fp_one_def, fp_zero_def, fp_sub_def, fp_mul_def,
    fp_t.mul, fp_t.add, fp_t.neg]

theorem color_scale_one (c : color) : c * (1 : fp_t) = c := by
  show color.scale c 1 = c
  simp [color.scale, fp_mul_one]

theorem color_zero_add (c : color) : color.mk 0 0 0 + c = c := by
  show color.add (color.mk 0 0 0) c = c
  simp [color.add, fp_zero_add]

theorem color_finite_mul_zero (c : color) (h : c.isFinite = true) :
    (c * ((1 : fp_t) - 1)) * (1 : fp_t) = color.black := by
  simp only [color.isFinite, Bool.and_eq_true] at h
  show color.scale (color.scale c (1 - 1)) 1 = color.black
  simp only [color.scale, color.black, fp_finite_mul_zero _ h.1.1, fp_finite_mul_zero _ h.1.2,
    fp_finite_mul_zero _ h.2]

theorem color_black_add_black : color.black + color.black = color.black := by
  show color.add color.black color.black = color.black
  simp [color.add, color.black, fp_zero_add]

theorem mirror_eq (d n : vector3) : (n * (-2 * n.dot d)) + d = mirror d n := by
  show vector3.add (vector3.scale n (-2 * n.dot d)) d =
    vector3.sub d (vector3.smul (2 * n.dot d) n)
  simp only [vector3.add, vector3.scale, vector3.sub, vector3.smul, fp_mirror_component]

/-! ## The geometry registry: nearest hit -/

/-- Invariant of the scan: either no remaining slot replaces the running best, or the
result is the hit of a remaining slot, strictly below the running `min_dist`, and no
remaining hit is strictly nearer. -/
theorem intersect_scan_cases (r : ray) (gs : List geometry) :
    ∀ (min_dist : fp_t) (min_result : intersect_result),
      (scene_storage.intersect_scan r gs min_dist min_result = min_result ∧
        ∀ g ∈ gs, ¬ ((g.intersect r).is_hit = true ∧ (g.intersect r).distance < min_dist)) ∨
      (∃ g ∈ gs, scene_storage.intersect_scan r gs min_dist min_result = g.intersect r ∧
        (g.intersect r).is_hit = true ∧ (g.intersect r).distance < min_dist ∧
        ∀ g2 ∈ gs, (g2.intersect r).is_hit = true →
          ¬ (g2.intersect r).distance < (g.intersect r).distance) := by
  induction gs with
  | nil => intro min_dist min_result; left; simp [scene_storage.intersect_scan]
  | cons g gs ih =>
    intro min_dist min_result
    by_cases hc : (g.intersect r).is_hit = true ∧ (g.intersect r).distance < min_dist
    · have hstep : scene_storage.intersect_scan r (g :: gs) min_dist min_result =
          scene_storage.intersect_scan r gs (g.intersect r).distance (g.intersect r) := by
        simp only [scene_storage.intersect_scan]; rw [if_pos hc]
      rw [hstep]
      right
      rcases ih (g.intersect r).distance (g.intersect r) with ⟨heq, hno⟩ | ⟨g1, hg1, heq, hh, hlt, hmin⟩
      · refine ⟨g, List.mem_cons_self _ _, heq, hc.1, hc.2, ?_⟩
        intro g2 hg2 hh2
        rcases List.mem_cons.mp hg2 with rfl | hg2
        · exact fp_lt_irrefl _
        · exact fun hlt2 => hno g2 hg2 ⟨hh2, hlt2⟩
      · refine ⟨g1, List.mem_cons_of_mem _ hg1, heq, hh, fp_lt_trans hlt hc.2, ?_⟩
        intro g2 hg2 hh2
        rcases List.mem_cons.mp hg2 with rfl | hg2
        · exact fp_lt_asymm hlt
        · exact hmin g2 hg2 hh2
    · have hstep : scene_storage.intersect_scan r (g :: gs) min_dist min_result =
          scene_storage.intersect_scan r gs min_dist min_result := by
        simp only [scene_storage.intersect_scan]; rw [if_neg hc]
      rw [hstep]
      rcases ih min_dist min_result with ⟨heq, hno⟩ | ⟨g1, hg1, heq, hh, hlt, hmin⟩
      · left
        refine ⟨heq, ?_⟩
        intro g2 hg2
        rcases List.mem_cons.mp hg2 with rfl | hg2
        · exact hc
        · exact hno g2 hg2
      · right
        refine ⟨g1, List.mem_cons_of_mem _ hg1, heq, hh, hlt, ?_⟩
        intro g2 hg2 hh2
        rcases List.mem_cons.mp hg2 with rfl | hg2
        · exact fun hlt2 => hc ⟨hh2, fp_lt_trans hlt2 hlt⟩
        · exact hmin g2 hg2 hh2

theorem intersect_eq_scan (s : scene_storage) (r : ray) :
    s.intersect r =
      scene_storage.intersect_scan r s.geometries fp_t.pinf intersect_result.init := by
  simp only [scene_storage.intersect]; rw [fp_one_div_zero]

theorem scene_one_hit (r : ray) :
    scene_one.intersect r = (hit_at 5).intersect r := by
  rw [intersect_eq_scan]
  simp [scene_one, scene_storage.intersect_scan, hit_at, fp_lt_iff, fp_t.lt, fp_ofNat_def]

/-- C1 (as stated, refuted): a registry whose only primitive reports a hit at distance
`+infinity` has a primitive that reports a hit, yet `scene_storage::intersect` returns a
result with `is_hit = false`: `inf < inf` is false, so the hit never replaces the default
result. -/
theorem intersect_hit_at_infinity_ignored :
    (∃ g ∈ (scene_storage.mk [hit_at fp_t.pinf]).geometries, (g.intersect ray0).is_hit = true) ∧
      ((scene_storage.mk [hit_at fp_t.pinf]).intersect ray0).is_hit = false := by
  refine ⟨⟨hit_at fp_t.pinf, by simp, rfl⟩, ?_⟩
  rw [intersect_eq_scan]
  simp [scene_storage.intersect_scan, hit_at, fp_lt_iff, fp_t.lt, intersect_result.init]

/-- C1 (amended): for every geometry registry and every ray, if at least one primitive
reports a hit whose distance is below `+infinity`, then `scene_storage::intersect` returns
a result with `is_hit = true` that is the result of one of the primitives' hits (so its
distance is that hit's distance), and its distance is less than or equal to the distance of
every primitive's hit whose distance is not `NaN`. -/
theorem intersect_returns_nearest_hit (s : scene_storage) (r : ray)
    (h : ∃ g ∈ s.geometries, (g.intersect r).is_hit = true ∧
      (g.intersect r).distance < fp_t.pinf) :
    (s.intersect r).is_hit = true ∧
      (∃ g ∈ s.geometries, (g.intersect r).is_hit = true ∧ s.intersect r = g.intersect r) ∧
      (∀ g ∈ s.geometries, (g.intersect r).is_hit = true →
        (g.intersect r).distance ≠ fp_t.nan →
        (s.intersect r).distance ≤ (g.intersect r).distance) := by
  rw [intersect_eq_scan]
  rcases intersect_scan_cases r s.geometries fp_t.pinf intersect_result.init with
    ⟨_, hno⟩ | ⟨g1, hg1, heq, hh, hlt, hmin⟩
  · obtain ⟨g, hg, hgh⟩ := h
    exact absurd hgh (hno g hg)
  · rw [heq]
    refine ⟨hh, ⟨g1, hg1, hh, rfl⟩, ?_⟩
    intro g2 hg2 hh2 hnan
    exact fp_le_of_not_lt (hmin g2 hg2 hh2) hnan (fp_ne_nan_of_lt hlt)

/-- Witness for C1 (amended): a registry with hits at distances 5, 3 and `+infinity`. -/
theorem intersect_returns_nearest_hit_witness :
    ((scene_storage.mk [hit_at 5, hit_at 3, hit_at fp_t.pinf]).intersect ray0).is_hit = true ∧
      (∃ g ∈ (scene_storage.mk [hit_at 5, hit_at 3, hit_at fp_t.pinf]).geometries,
        (g.intersect ray0).is_hit = true ∧
        (scene_storage.mk [hit_at 5, hit_at 3, hit_at fp_t.pinf]).intersect ray0 =
          g.intersect ray0) ∧
      (∀ g ∈ (scene_storage.mk [hit_at 5, hit_at 3, hit_at fp_t.pinf]).geometries,
        (g.intersect ray0).is_hit = true → (g.intersect ray0).distance ≠ fp_t.nan →
        ((scene_storage.mk [hit_at 5, hit_at 3, hit_at fp_t.pinf]).intersect ray0).distance ≤
          (g.intersect ray0).distance) :=
  intersect_returns_nearest_hit (scene_storage.mk [hit_at 5, hit_at 3, hit_at fp_t.pinf]) ray0
    ⟨hit_at 3, by simp, rfl, by decide⟩

theorem intersect_init_of_no_hit (s : scene_storage) (r : ray)
    (h : ∀ g ∈ s.geometries, (g.intersect r).is_hit = false) :
    s.intersect r = intersect_result.init := by
  rw [intersect_eq_scan]
  rcases intersect_scan_cases r s.geometries fp_t.pinf intersect_result.init with
    ⟨heq, _⟩ | ⟨g1, hg1, _, hh, _, _⟩
  · exact heq
  · rw [h g1 hg1] at hh; exact absurd hh (by decide)

/-- C2: for every geometry registry and every ray such that no primitive reports a hit,
`scene_storage::intersect` returns the default-constructed result unchanged, and its
`is_hit` is false. -/
theorem intersect_no_hit (s : scene_storage) (r : ray)
    (h : ∀ g ∈ s.geometries, (g.intersect r).is_hit = false) :
    s.intersect r = intersect_result.init ∧ (s.intersect r).is_hit = false := by
  have key := intersect_init_of_no_hit s r h
  exact ⟨key, by rw [key]; rfl⟩

/-- Witness for C2: a registry of two primitives that both miss. -/
theorem intersect_no_hit_witness :
    (scene_storage.mk [miss_7, miss_7]).intersect ray0 = intersect_result.init ∧
      ((scene_storage.mk [miss_7, miss_7]).intersect ray0).is_hit = false :=
  intersect_no_hit (scene_storage.mk [miss_7, miss_7]) ray0 (by simp [miss_7])

/-- C8 (as stated, refuted): for a registry of one primitive the result of the registry
differs from the primitive's own result, on a hit (a hit at distance `+infinity` is turned
into the default no-hit result) and on a miss (the default result is returned, not the
primitive's, whose `distance` field is `7` here). -/
theorem intersect_single_differs :
    ((hit_at fp_t.pinf).intersect ray0).is_hit = true ∧
      (scene_storage.mk [hit_at fp_t.pinf]).intersect ray0 ≠ (hit_at fp_t.pinf).intersect ray0 ∧
      (miss_7.intersect ray0).is_hit = false ∧
      (scene_storage.mk [miss_7]).intersect ray0 ≠ miss_7.intersect ray0 := by
  refine ⟨rfl, ?_, rfl, ?_⟩
  · rw [intersect_eq_scan]
    simp [scene_storage.intersect_scan, hit_at, fp_lt_iff, fp_t.lt, intersect_result.init]
  · rw [intersect_eq_scan]
    simp [scene_storage.intersect_scan, miss_7, intersect_result.init]

/-- C8 (amended): for a geometry registry that holds exactly one primitive, and for every
ray, the registry's intersect equals the primitive's own result in every field when the
primitive reports a hit whose distance is below `+infinity`; otherwise it is the
default-constructed result, so that `is_hit` is the primitive's `is_hit` restricted to
distances below `+infinity` (false, as the primitive's, on a miss). -/
theorem intersect_single (g : geometry) (r : ray) :
    (scene_storage.mk [g]).intersect r =
        (if (g.intersect r).is_hit = true ∧ (g.intersect r).distance < fp_t.pinf
          then g.intersect r else intersect_result.init) ∧
      ((scene_storage.mk [g]).intersect r).is_hit =
        ((g.intersect r).is_hit && decide ((g.intersect r).distance < fp_t.pinf)) := by
  rw [intersect_eq_scan]
  by_cases hc : (g.intersect r).is_hit = true ∧ (g.intersect r).distance < fp_t.pinf
  · simp only [scene_storage.intersect_scan]
    rw [if_pos hc]
    simp [hc.1, hc.2]
  · simp only [scene_storage.intersect_scan]
    rw [if_neg hc]
    refine ⟨trivial, ?_⟩
    by_cases hh : (g.intersect r).is_hit = true
    · have : ¬ (g.intersect r).distance < fp_t.pinf := fun h2 => hc ⟨hh, h2⟩
      simp [intersect_result.init, this]
    · simp [intersect_result.init, hh]

/-! ## The reflective shading integrator: one loop iteration -/

theorem reflection_loop_done (scene : scene_storage) (materials : material_storage)
    (max_reflect i : Int) (i_ray : ray) (final_color : color) (reflectiveness : fp_t)
    (calls : List call) (h : ¬ i < max_reflect) :
    reflection_loop scene materials max_reflect i i_ray final_color reflectiveness calls =
      (final_color, calls) := by
  rw [reflection_loop, if_neg h]

theorem reflection_loop_miss (scene : scene_storage) (materials : material_storage)
    (max_reflect i : Int) (i_ray : ray) (final_color : color) (reflectiveness : fp_t)
    (calls : List call) (h : i < max_reflect) (hm : (scene.intersect i_ray).is_hit = false) :
    reflection_loop scene materials max_reflect i i_ray final_color reflectiveness calls =
      (final_color, calls ++ [call.intersect i_ray]) := by
  rw [reflection_loop, if_pos h]
  simp [hm]

theorem reflection_loop_stop (scene : scene_storage) (materials : material_storage)
    (max_reflect i : Int) (i_ray : ray) (final_color : color) (reflectiveness : fp_t)
    (calls : List call) (h : i < max_reflect) (hh : (scene.intersect i_ray).is_hit = true)
    (hs : ¬ reflectiveness *
      materials.get_reflectiveness (scene.intersect i_ray).material > 0) :
    reflection_loop scene materials max_reflect i i_ray final_color reflectiveness calls =
      (final_color +
          ((materials.sample (scene.intersect i_ray).material i_ray
              (scene.intersect i_ray).position (scene.intersect i_ray).normal *
            (1 - materials.get_reflectiveness (scene.intersect i_ray).material)) *
            reflectiveness),
        calls ++ [call.intersect i_ray] ++
          [call.get_reflectiveness (scene.intersect i_ray).material,
            call.sample (scene.intersect i_ray).material i_ray
              (scene.intersect i_ray).position (scene.intersect i_ray).normal]) := by
  rw [reflection_loop, if_pos h]
  simp only [hh, if_true]
  rw [if_neg hs]

theorem reflection_loop_continue (scene : scene_storage) (materials : material_storage)
    (max_reflect i : Int) (i_ray : ray) (final_color : color) (reflectiveness : fp_t)
    (calls : List call) (h : i < max_reflect) (hh : (scene.intersect i_ray).is_hit = true)
    (hs : reflectiveness *
      materials.get_reflectiveness (scene.intersect i_ray).material > 0) :
    reflection_loop scene materials max_reflect i i_ray final_color reflectiveness calls =
      reflection_loop scene materials max_reflect (i + 1)
        (ray.mk (scene.intersect i_ray).position
          (((scene.intersect i_ray).normal *
              (-2 * (scene.intersect i_ray).normal.dot i_ray.direction)) + i_ray.direction))
        (final_color +
          ((materials.sample (scene.intersect i_ray).material i_ray
              (scene.intersect i_ray).position (scene.intersect i_ray).normal *
            (1 - materials.get_reflectiveness (scene.intersect i_ray).material)) *
            reflectiveness))
        (reflectiveness * materials.get_reflectiveness (scene.intersect i_ray).material)
        (calls ++ [call.intersect i_ray] ++
          [call.get_reflectiveness (scene.intersect i_ray).material,
            call.sample (scene.intersect i_ray).material i_ray
              (scene.intersect i_ray).position (scene.intersect i_ray).normal]) := by
  rw [reflection_loop, if_pos h]
  simp only [hh, if_true]
  rw [if_pos hs]

/-- C3: for every scene, material registry, bounce limit and initial ray such that the
initial ray hits no primitive, `reflection` returns black (0,0,0), and the only registry
call of the run is the `scene.intersect` of the first iteration (none at all for a bounce
limit below 1): `sample` and `get_reflectiveness` are never called. -/
theorem reflection_miss_is_black (i_ray : ray) (scene : scene_storage)
    (materials : material_storage) (max_reflect : Int)
    (h : ∀ g ∈ scene.geometries, (g.intersect i_ray).is_hit = false) :
    reflection i_ray scene materials max_reflect = color.black ∧
      (reflection_run i_ray scene materials max_reflect).2 =
        (if 0 < max_reflect then [call.intersect i_ray] else []) := by
  have hm : (scene.intersect i_ray).is_hit = false := by
    rw [intersect_init_of_no_hit scene i_ray h]; rfl
  unfold reflection reflection_run
  by_cases hN : (0 : Int) < max_reflect
  · rw [reflection_loop_miss _ _ _ _ _ _ _ _ hN hm, if_pos hN]
    exact ⟨rfl, rfl⟩
  · rw [reflection_loop_done _ _ _ _ _ _ _ _ hN, if_neg hN]
    exact ⟨rfl, rfl⟩

/-- Witness for C3: a scene of two primitives that both miss, bounce limit 3. -/
theorem reflection_miss_is_black_witness :
    reflection ray0 (scene_storage.mk [miss_7, miss_7]) (mats_const 0 ⟨1, 1, 1⟩) 3 =
        color.black ∧
      (reflection_run ray0 (scene_storage.mk [miss_7, miss_7]) (mats_const 0 ⟨1, 1, 1⟩) 3).2 =
        (if (0 : Int) < 3 then [call.intersect ray0] else []) :=
  reflection_miss_is_black ray0 (scene_storage.mk [miss_7, miss_7]) (mats_const 0 ⟨1, 1, 1⟩) 3
    (by simp [miss_7])

/-- C4: for every bounce limit `N >= 1` and every initial ray whose nearest hit `h` has a
material with reflectiveness exactly 0, `reflection` returns exactly
`materials.sample(h.material, ray, h.position, h.normal)`: the weight `1 - r` is 1, and the
run makes one `intersect`, one `get_reflectiveness` and one `sample` call, so no further
bounce is traced. -/
theorem reflection_diffuse_hit (i_ray : ray) (scene : scene_storage)
    (materials : material_storage) (max_reflect : Int) (hN : 1 ≤ max_reflect)
    (hh : (scene.intersect i_ray).is_hit = true)
    (hr : materials.get_reflectiveness (scene.intersect i_ray).material = 0) :
    reflection i_ray scene materials max_reflect =
        materials.sample (scene.intersect i_ray).material i_ray
          (scene.intersect i_ray).position (scene.intersect i_ray).normal ∧
      (1 : fp_t) - materials.get_reflectiveness (scene.intersect i_ray).material = 1 ∧
      (reflection_run i_ray scene materials max_reflect).2 =
        [call.intersect i_ray,
          call.get_reflectiveness (scene.intersect i_ray).material,
          call.sample (scene.intersect i_ray).material i_ray
            (scene.intersect i_ray).position (scene.intersect i_ray).normal] := by
  have hlt : (0 : Int) < max_reflect := by omega
  have hs : ¬ (1 : fp_t) * materials.get_reflectiveness (scene.intersect i_ray).material > 0 := by
    rw [hr]; exact fp_one_mul_zero_not_pos
  unfold reflection reflection_run
  rw [reflection_loop_stop _ _ _ _ _ _ _ _ hlt hh hs, hr, fp_one_sub_zero]
  refine ⟨?_, rfl, rfl⟩
  simp only [color_scale_one, color_zero_add]

/-- Witness for C4: one primitive that is always hit, materials of reflectiveness 0 that
sample to red, bounce limit 3. -/
theorem reflection_diffuse_hit_witness :
    reflection ray0 scene_one (mats_const 0 ⟨1, 0, 0⟩) 3 = ⟨1, 0, 0⟩ ∧
      (reflection_run ray0 scene_one (mats_const 0 ⟨1, 0, 0⟩) 3).2.length = 3 :=
  have hh : (scene_one.intersect ray0).is_hit = true := by rw [scene_one_hit]; rfl
  have h := reflection_diffuse_hit ray0 scene_one (mats_const 0 ⟨1, 0, 0⟩) 3 (by decide) hh rfl
  ⟨h.1, by rw [h.2.2]; rfl⟩

/-! ## The integrator and its closed form -/

theorem first_index_le (p : Nat → Bool) (n : Nat) : first_index p n ≤ n := by
  induction n with
  | zero => simp [first_index]
  | succ n ih =>
    simp only [first_index]
    split_ifs <;> omega

theorem first_index_ge (p : Nat → Bool) (n : Nat) :
    ∀ j, j ≤ n → (∀ i < j, p i = false) → j ≤ first_index p n := by
  induction n with
  | zero => intro j hj _; omega
  | succ n ih =>
    intro j hj hlt
    have hle := first_index_le p n
    simp only [first_index]
    by_cases hjn : j ≤ n
    · have := ih j hjn hlt
      split_ifs <;> omega
    · have h1 : n ≤ first_index p n := ih n (le_refl n) (fun i hi => hlt i (by omega))
      have h2 : p n = false := hlt n (by omega)
      rw [if_neg (by omega)]
      simp [h2]
      omega

theorem first_index_eq (p : Nat → Bool) (n : Nat) :
    ∀ j, j ≤ n → (∀ i < j, p i = false) → (j < n → p j = true) → first_index p n = j := by
  induction n with
  | zero => intro j hj _ _; simp [first_index]; omega
  | succ n ih =>
    intro j hj hlt hp
    simp only [first_index]
    by_cases hjn : j < n
    · have := ih j (by omega) hlt (fun _ => hp (by omega))
      rw [this, if_pos hjn]
    · have h1 : first_index p n = n :=
        ih n (le_refl n) (fun i hi => hlt i (by omega)) (fun h => absurd h (by omega))
      rw [h1, if_neg (by omega)]
      by_cases hjn2 : j = n
      · subst hjn2
        rw [if_pos (hp (by omega))]
      · have h2 : p n = false := hlt n (by omega)
        simp [h2]
        omega

theorem first_index_lt_false (p : Nat → Bool) (n : Nat) :
    ∀ i, i < first_index p n → p i = false := by
  induction n with
  | zero => intro i hi; simp [first_index] at hi
  | succ n ih =>
    intro i hi
    have hle := first_index_le p n
    simp only [first_index] at hi
    by_cases h1 : first_index p n < n
    · rw [if_pos h1] at hi; exact ih i hi
    · rw [if_neg h1] at hi
      by_cases h2 : p n = true
      · rw [if_pos h2] at hi; exact ih i (by omega)
      · rw [if_neg h2] at hi
        by_cases h3 : i < n
        · exact ih i (by omega)
        · have : i = n := by omega
          subst this
          simpa using h2

theorem intersect_calls_append (a b : List call) :
    intersect_calls (a ++ b) = intersect_calls a + intersect_calls b := by
  simp [intersect_calls, List.countP_append]

theorem reflection_loop_closed (scene : scene_storage) (materials : material_storage)
    (max_reflect : Int) (i_ray : ray) :
    ∀ (d k : Nat) (calls : List call), k + d = max_reflect.toNat →
      (∀ j < k, bounce_miss scene i_ray j = false ∧
        bounce_dead scene materials i_ray j = false) →
      (reflection_loop scene materials max_reflect k (bounce_ray scene i_ray k)
          (bounce_sum scene materials i_ray k) (bounce_product scene materials i_ray k)
          calls).1 = reflection_closed_form i_ray scene materials max_reflect ∧
      intersect_calls (reflection_loop scene materials max_reflect k
          (bounce_ray scene i_ray k) (bounce_sum scene materials i_ray k)
          (bounce_product scene materials i_ray k) calls).2 + k =
        intersect_calls calls + bounce_iterations scene materials i_ray max_reflect := by
  intro d
  induction d with
  | zero =>
    intro k calls hk halive
    have hnot : ¬ (k : Int) < max_reflect := by omega
    rw [reflection_loop_done _ _ _ _ _ _ _ _ hnot]
    have hfm : first_index (bounce_miss scene i_ray) max_reflect.toNat = k :=
      first_index_eq _ _ k (by omega) (fun i hi => (halive i hi).1) (fun h => absurd h (by omega))
    have hfd : first_index (bounce_dead scene materials i_ray) max_reflect.toNat = k :=
      first_index_eq _ _ k (by omega) (fun i hi => (halive i hi).2) (fun h => absurd h (by omega))
    have hm : bounce_count scene materials i_ray max_reflect = k := by
      simp only [bounce_count, hfm, hfd]; omega
    constructor
    · simp only [reflection_closed_form, hm]
    · simp only [bounce_iterations, hfm, hfd, hm]
      rw [if_neg (by omega)]
  | succ d ih =>
    intro k calls hk halive
    have hlt : (k : Int) < max_reflect := by omega
    have hfdge : k ≤ first_index (bounce_dead scene materials i_ray) max_reflect.toNat :=
      first_index_ge _ _ k (by omega) (fun i hi => (halive i hi).2)
    by_cases hh : (scene.intersect (bounce_ray scene i_ray k)).is_hit = true
    · have hfmge : k + 1 ≤ first_index (bounce_miss scene i_ray) max_reflect.toNat := by
        apply first_index_ge _ _ (k + 1) (by omega)
        intro i hi
        by_cases hik : i < k
        · exact (halive i hik).1
        · have : i = k := by omega
          subst this
          simp [bounce_miss, bounce_hit, hh]
      by_cases hs : bounce_product scene materials i_ray k *
          materials.get_reflectiveness (scene.intersect (bounce_ray scene i_ray k)).material > 0
      · rw [reflection_loop_continue _ _ _ _ _ _ _ _ hlt hh hs, mirror_eq]
        have halive2 : ∀ j < k + 1, bounce_miss scene i_ray j = false ∧
            bounce_dead scene materials i_ray j = false := by
          intro j hj
          by_cases hjk : j < k
          · exact halive j hjk
          · have : j = k := by omega
            subst this
            constructor
            · simp [bounce_miss, bounce_hit, hh]
            · simp only [bounce_dead, bounce_product, bounce_r, bounce_hit]
              simp [hs]
        have := ih (k + 1) (calls ++ [call.intersect (bounce_ray scene i_ray k)] ++
          [call.get_reflectiveness (scene.intersect (bounce_ray scene i_ray k)).material,
            call.sample (scene.intersect (bounce_ray scene i_ray k)).material
              (bounce_ray scene i_ray k) (scene.intersect (bounce_ray scene i_ray k)).position
              (scene.intersect (bounce_ray scene i_ray k)).normal]) (by omega) halive2
        simp only [bounce_ray, bounce_sum, bounce_product, bounce_term, bounce_sample,
          bounce_r, bounce_hit, Nat.cast_add, Nat.cast_one] at this
        refine ⟨this.1, ?_⟩
        have h2 := this.2
        simp only [intersect_calls_append] at h2
        simp [intersect_calls, call.is_intersect] at h2 ⊢
        omega
      · rw [reflection_loop_stop _ _ _ _ _ _ _ _ hlt hh hs]
        have hfd : first_index (bounce_dead scene materials i_ray) max_reflect.toNat = k := by
          apply first_index_eq _ _ k (by omega) (fun i hi => (halive i hi).2)
          intro _
          simp only [bounce_dead, bounce_product, bounce_r, bounce_hit]
          simp [hs]
        have hm : bounce_count scene materials i_ray max_reflect = k + 1 := by
          simp only [bounce_count, hfd]; omega
        constructor
        · simp only [reflection_closed_form, hm, bounce_sum, bounce_term, bounce_sample,
            bounce_r, bounce_hit]
        · simp only [bounce_iterations, hfd, hm]
          rw [if_neg (by omega)]
          simp only [intersect_calls_append]
          simp [intersect_calls, call.is_intersect]
          omega
    · have hm0 : (scene.intersect (bounce_ray scene i_ray k)).is_hit = false := by
        simpa using hh
      rw [reflection_loop_miss _ _ _ _ _ _ _ _ hlt hm0]
      have hfm : first_index (bounce_miss scene i_ray) max_reflect.toNat = k := by
        apply first_index_eq _ _ k (by omega) (fun i hi => (halive i hi).1)
        intro _
        simp [bounce_miss, bounce_hit, hm0]
      have hm : bounce_count scene materials i_ray max_reflect = k := by
        simp only [bounce_count, hfm]; omega
      constructor
      · simp only [reflection_closed_form, hm]
      · simp only [bounce_iterations, hfm, hm]
        rw [if_pos (by omega)]
        simp only [intersect_calls_append]
        simp [intersect_calls, call.is_intersect]
        omega

theorem reflection_run_closed (i_ray : ray) (scene : scene_storage)
    (materials : material_storage) (max_reflect : Int) :
    (reflection_run i_ray scene materials max_reflect).1 =
        reflection_closed_form i_ray scene materials max_reflect ∧
      intersect_calls (reflection_run i_ray scene materials max_reflect).2 =
        bounce_iterations scene materials i_ray max_reflect := by
  have h := reflection_loop_closed scene materials max_reflect i_ray max_reflect.toNat 0 []
    (by omega) (fun j hj => absurd hj (by omega))
  simp only [bounce_ray, bounce_sum, bounce_product, Nat.cast_zero] at h
  refine ⟨h.1, ?_⟩
  have h2 := h.2
  simp only [intersect_calls, List.countP_nil] at h2 ⊢
  simpa [reflection_run] using h2

theorem bounce_iterations_le (scene : scene_storage) (materials : material_storage)
    (i_ray : ray) (max_reflect : Int) :
    bounce_iterations scene materials i_ray max_reflect ≤ max_reflect.toNat := by
  simp only [bounce_iterations, bounce_count]
  split_ifs <;> omega

/-- C9: for every scene, material registry, initial ray and bounce limit `N`, `reflection`
(a total function: the loop counter runs up to `N`) makes at most `max(N, 0)` calls to
`scene.intersect`, whatever the scene and the reflectiveness values; for `N <= 0` it
returns black and makes no registry call. -/
theorem reflection_intersect_calls_le (i_ray : ray) (scene : scene_storage)
    (materials : material_storage) (max_reflect : Int) :
    ((intersect_calls (reflection_run i_ray scene materials max_reflect).2 : Nat) : Int) ≤
        max max_reflect 0 ∧
      (max_reflect ≤ 0 →
        reflection_run i_ray scene materials max_reflect = (color.black, [])) := by
  constructor
  · rw [(reflection_run_closed i_ray scene materials max_reflect).2]
    have := bounce_iterations_le scene materials i_ray max_reflect
    omega
  · intro hN
    unfold reflection_run
    rw [reflection_loop_done _ _ _ _ _ _ _ _ (by omega)]
    rfl

/-- Witness for C9: with the bounce limit 0 or -1 nothing is intersected. -/
theorem reflection_intersect_calls_le_witness :
    reflection_run ray0 scene_one (mats_const 1 ⟨1, 0, 0⟩) 0 = (color.black, []) ∧
      reflection_run ray0 scene_one (mats_const 1 ⟨1, 0, 0⟩) (-1) = (color.black, []) :=
  ⟨(reflection_intersect_calls_le ray0 scene_one (mats_const 1 ⟨1, 0, 0⟩) 0).2 (by decide),
    (reflection_intersect_calls_le ray0 scene_one (mats_const 1 ⟨1, 0, 0⟩) (-1)).2 (by decide)⟩

/-- C10: for every scene, material registry, initial ray and bounce limit, `reflection`
returns the closed form: the sum over the shaded bounces `k = 0 .. m-1` of
`sample_k * (1 - r_k) * (r_0 * ... * r_(k-1))` along the bounce path
`ray_(k+1) = ray(hit_k.position, d_k - 2 (n_k . d_k) n_k)`, where `m` is the least of the
bounce limit, the index of the first miss and one past the first `k` at which
`r_0 * ... * r_k` is not greater than 0. -/
theorem reflection_eq_closed_form (i_ray : ray) (scene : scene_storage)
    (materials : material_storage) (max_reflect : Int) :
    reflection i_ray scene materials max_reflect =
      reflection_closed_form i_ray scene materials max_reflect :=
  (reflection_run_closed i_ray scene materials max_reflect).1

/-! ## Surfaces of reflectiveness 1 -/

/-- C5 (as stated, refuted): with the bounce limit 1, a primitive that is always hit and
materials of reflectiveness exactly 1 whose shading has an infinite value in every channel,
every material hit has reflectiveness exactly 1, yet the colour returned is not black:
`inf * (1 - 1)` is `NaN`. -/
theorem reflection_mirror_infinite_sample :
    (∀ id : Int, (mats_const 1 ⟨fp_t.pinf, fp_t.pinf, fp_t.pinf⟩).get_reflectiveness id = 1) ∧
      reflection ray0 scene_one (mats_const 1 ⟨fp_t.pinf, fp_t.pinf, fp_t.pinf⟩) 1 =
        ⟨fp_t.nan, fp_t.nan, fp_t.nan⟩ ∧
      reflection ray0 scene_one (mats_const 1 ⟨fp_t.pinf, fp_t.pinf, fp_t.pinf⟩) 1 ≠
        color.black := by
  have hval : reflection ray0 scene_one (mats_const 1 ⟨fp_t.pinf, fp_t.pinf, fp_t.pinf⟩) 1 =
      ⟨fp_t.nan, fp_t.nan, fp_t.nan⟩ := by
    unfold reflection reflection_run
    have hh : (scene_one.intersect ray0).is_hit = true := by rw [scene_one_hit]; rfl
    rw [reflection_loop_continue _ _ _ _ _ _ _ _ (by decide) hh
      (by simpa [mats_const, material_storage.get_reflectiveness, fp_one_mul_one] using fp_one_pos)]
    rw [reflection_loop_done _ _ _ _ _ _ _ _ (by decide)]
    show color.add (color.mk 0 0 0) (color.scale (color.scale _ _) 1) = _
    simp [mats_const, material_storage.sample, material_storage.get_reflectiveness,
      color.add, color.scale, fp_one_def, fp_zero_def, fp_sub_def, fp_mul_def, fp_add_def,
      fp_t.mul, fp_t.add, fp_t.neg, fp_t.mulInf]
  refine ⟨fun _ => rfl, hval, ?_⟩
  rw [hval]
  simp [color.black]

theorem bounce_product_mirror (scene : scene_storage) (materials : material_storage)
    (i_ray : ray) (max_reflect : Int)
    (hr : ∀ k : Nat, (k : Int) < max_reflect →
      (∀ j ≤ k, (bounce_hit scene i_ray j).is_hit = true) →
      bounce_r scene materials i_ray k = 1) :
    ∀ k : Nat, k ≤ max_reflect.toNat →
      (∀ j < k, (bounce_hit scene i_ray j).is_hit = true) →
      bounce_product scene materials i_ray k = 1 := by
  intro k
  induction k with
  | zero => intro _ _; rfl
  | succ k ih =>
    intro hk hhit
    have hrk := hr k (by omega) (fun j hj => hhit j (by omega))
    simp only [bounce_product]
    rw [ih (by omega) (fun j hj => hhit j (by omega)), hrk, fp_one_mul_one]

theorem bounce_term_mirror (scene : scene_storage) (materials : material_storage)
    (i_ray : ray) (max_reflect : Int)
    (hr : ∀ k : Nat, (k : Int) < max_reflect →
      (∀ j ≤ k, (bounce_hit scene i_ray j).is_hit = true) →
      bounce_r scene materials i_ray k = 1)
    (hfin : ∀ k : Nat, (k : Int) < max_reflect →
      (∀ j ≤ k, (bounce_hit scene i_ray j).is_hit = true) →
      (bounce_sample scene materials i_ray k).isFinite = true) :
    ∀ k : Nat, (k : Int) < max_reflect →
      (∀ j ≤ k, (bounce_hit scene i_ray j).is_hit = true) →
      bounce_term scene materials i_ray k = color.black := by
  intro k hk hhit
  have hp := bounce_product_mirror scene materials i_ray max_reflect hr k (by omega)
    (fun j hj => hhit j (by omega))
  simp only [bounce_term]
  rw [hp, hr k hk hhit]
  exact color_finite_mul_zero _ (hfin k hk hhit)

theorem bounce_sum_mirror (scene : scene_storage) (materials : material_storage)
    (i_ray : ray) (max_reflect : Int)
    (hr : ∀ k : Nat, (k : Int) < max_reflect →
      (∀ j ≤ k, (bounce_hit scene i_ray j).is_hit = true) →
      bounce_r scene materials i_ray k = 1)
    (hfin : ∀ k : Nat, (k : Int) < max_reflect →
      (∀ j ≤ k, (bounce_hit scene i_ray j).is_hit = true) →
      (bounce_sample scene materials i_ray k).isFinite = true) :
    ∀ k : Nat, k ≤ max_reflect.toNat →
      (∀ j < k, (bounce_hit scene i_ray j).is_hit = true) →
      bounce_sum scene materials i_ray k = color.black := by
  intro k
  induction k with
  | zero => intro _ _; rfl
  | succ k ih =>
    intro hk hhit
    simp only [bounce_sum]
    rw [ih (by omega) (fun j hj => hhit j (by omega)),
      bounce_term_mirror scene materials i_ray max_reflect hr hfin k (by omega)
        (fun j hj => hhit j (by omega)),
      color_black_add_black]

theorem bounce_count_mirror (scene : scene_storage) (materials : material_storage)
    (i_ray : ray) (max_reflect : Int)
    (hr : ∀ k : Nat, (k : Int) < max_reflect →
      (∀ j ≤ k, (bounce_hit scene i_ray j).is_hit = true) →
      bounce_r scene materials i_ray k = 1) :
    first_index (bounce_miss scene i_ray) max_reflect.toNat ≤
        first_index (bounce_dead scene materials i_ray) max_reflect.toNat ∧
      bounce_count scene materials i_ray max_reflect =
        first_index (bounce_miss scene i_ray) max_reflect.toNat := by
  have hle := first_index_le (bounce_miss scene i_ray) max_reflect.toNat
  have hhit : ∀ j < first_index (bounce_miss scene i_ray) max_reflect.toNat,
      (bounce_hit scene i_ray j).is_hit = true := by
    intro j hj
    have := first_index_lt_false _ _ j hj
    simpa [bounce_miss] using this
  have hfd : first_index (bounce_miss scene i_ray) max_reflect.toNat ≤
      first_index (bounce_dead scene materials i_ray) max_reflect.toNat := by
    apply first_index_ge _ _ _ hle
    intro j hj
    have hp := bounce_product_mirror scene materials i_ray max_reflect hr (j + 1) (by omega)
      (fun i hi => hhit i (by omega))
    simp only [bounce_dead, hp]
    simpa using fp_one_pos
  refine ⟨hfd, ?_⟩
  simp only [bounce_count]
  omega

/-- C5 (amended): for every bounce limit `N` and every initial ray, if every material that
is hit along the bounce path has reflectiveness exactly 1, then `reflection` performs
exactly `max(N, 0)` loop iterations unless some bounce ray misses the geometry, in which
case its last iteration is the one of the first miss; if moreover every colour sampled
along the path has finite channels, each shaded bounce adds zero colour and the returned
colour is black (0,0,0). -/
theorem reflection_all_mirror (i_ray : ray) (scene : scene_storage)
    (materials : material_storage) (max_reflect : Int)
    (hr : ∀ k : Nat, (k : Int) < max_reflect →
      (∀ j ≤ k, (bounce_hit scene i_ray j).is_hit = true) →
      bounce_r scene materials i_ray k = 1) :
    ((∀ k : Nat, (k : Int) < max_reflect → (bounce_hit scene i_ray k).is_hit = true) →
        intersect_calls (reflection_run i_ray scene materials max_reflect).2 =
          max_reflect.toNat) ∧
      (∀ k : Nat, (k : Int) < max_reflect →
        (∀ j < k, (bounce_hit scene i_ray j).is_hit = true) →
        (bounce_hit scene i_ray k).is_hit = false →
        intersect_calls (reflection_run i_ray scene materials max_reflect).2 = k + 1) ∧
      ((∀ k : Nat, (k : Int) < max_reflect →
          (∀ j ≤ k, (bounce_hit scene i_ray j).is_hit = true) →
          (bounce_sample scene materials i_ray k).isFinite = true) →
        reflection i_ray scene materials max_reflect = color.black ∧
        (∀ k : Nat, (k : Int) < max_reflect →
          (∀ j ≤ k, (bounce_hit scene i_ray j).is_hit = true) →
          bounce_term scene materials i_ray k = color.black)) := by
  have hrun := reflection_run_closed i_ray scene materials max_reflect
  have hcnt := bounce_count_mirror scene materials i_ray max_reflect hr
  have hle := first_index_le (bounce_miss scene i_ray) max_reflect.toNat
  refine ⟨?_, ?_, ?_⟩
  · intro hall
    have hfm : first_index (bounce_miss scene i_ray) max_reflect.toNat = max_reflect.toNat := by
      apply first_index_eq _ _ _ (le_refl _)
      · intro i hi
        simp [bounce_miss, hall i (by omega)]
      · intro hlt; exact absurd hlt (by omega)
    rw [hrun.2, bounce_iterations, if_neg (by omega), hcnt.2, hfm]
  · intro k hk hhit hmiss
    have hfm : first_index (bounce_miss scene i_ray) max_reflect.toNat = k := by
      apply first_index_eq _ _ k (by omega)
      · intro i hi
        simp [bounce_miss, hhit i hi]
      · intro _
        simp [bounce_miss, hmiss]
    rw [hrun.2, bounce_iterations, if_pos (by omega), hfm]
  · intro hfin
    refine ⟨?_, bounce_term_mirror scene materials i_ray max_reflect hr hfin⟩
    unfold reflection
    rw [hrun.1, reflection_closed_form, hcnt.2]
    apply bounce_sum_mirror scene materials i_ray max_reflect hr hfin _ (by omega)
    intro j hj
    have := first_index_lt_false _ _ j hj
    simpa [bounce_miss] using this

/-- Witness for C5 (amended): one primitive that is always hit, materials of
reflectiveness 1 that sample to red, bounce limit 2. -/
theorem reflection_all_mirror_witness :
    intersect_calls (reflection_run ray0 scene_one (mats_const 1 ⟨1, 0, 0⟩) 2).2 = 2 ∧
      reflection ray0 scene_one (mats_const 1 ⟨1, 0, 0⟩) 2 = color.black :=
  have h := reflection_all_mirror ray0 scene_one (mats_const 1 ⟨1, 0, 0⟩) 2
    (fun _ _ _ => rfl)
  ⟨h.1 (fun k _ => by rw [bounce_hit, scene_one_hit]; rfl),
    (h.2.2 (fun _ _ _ => by
      simp [bounce_sample, mats_const, material_storage.sample, color.isFinite,
        fp_t.isFinite, fp_one_def, fp_zero_def])).1⟩

/-! ## The per-pixel kernels: packing and the view-plane mapping -/

theorem pack_pixel_eq_sum (r g b : Nat) (hr : r ≤ 255) (hg : g ≤ 255) (hb : b ≤ 255) :
    pack_pixel r g b = 0xff000000 + r * 65536 + g * 256 + b := by
  unfold pack_pixel
  have e1 : r <<< 16 % 2 ^ 32 = 2 ^ 16 * r := by
    rw [Nat.shiftLeft_eq]; norm_num; omega
  have e2 : g <<< 8 % 2 ^ 32 = 2 ^ 8 * g := by
    rw [Nat.shiftLeft_eq]; norm_num; omega
  have e3 : b % 2 ^ 32 = b := Nat.mod_eq_of_lt (by omega)
  rw [e1, e2, e3, Nat.or_assoc, Nat.or_assoc]
  have h1 : b < 2 ^ 8 := by norm_num; omega
  have h2 : 2 ^ 8 * g + b < 2 ^ 16 := by norm_num; omega
  have h3 : 2 ^ 16 * r + (2 ^ 8 * g + b) < 2 ^ 24 := by norm_num; omega
  have e4 : (0xff000000 : Nat) = 2 ^ 24 * 255 := by norm_num
  rw [← Nat.mul_add_lt_is_or h1 g, ← Nat.mul_add_lt_is_or h2 r, e4,
    ← Nat.mul_add_lt_is_or h3 255]
  norm_num
  omega

/-- C6: for all channel values R, G, B in 0..255 the pixel value
`0xff000000 | (R << 16) | (G << 8) | B` is a 32-bit value whose bits 24-31 are `0xFF`,
bits 16-23 are R, bits 8-15 are G and bits 0-7 are B; for R=255, G=128, B=0 it is
`0xFFFF8000`. -/
theorem pack_pixel_channels (r g b : Nat) (hr : r ≤ 255) (hg : g ≤ 255) (hb : b ≤ 255) :
    pack_pixel r g b < 2 ^ 32 ∧
      (pack_pixel r g b >>> 24) &&& 0xFF = 0xFF ∧
      (pack_pixel r g b >>> 16) &&& 0xFF = r ∧
      (pack_pixel r g b >>> 8) &&& 0xFF = g ∧
      pack_pixel r g b &&& 0xFF = b ∧
      pack_pixel 255 128 0 = 0xFFFF8000 := by
  have hm : ∀ x : Nat, x &&& 0xFF = x % 2 ^ 8 := fun x => Nat.and_pow_two_sub_one_eq_mod x 8
  have h128 := pack_pixel_eq_sum 255 128 0 (by omega) (by omega) (by omega)
  simp only [hm, pack_pixel_eq_sum r g b hr hg hb, h128, Nat.shiftRight_eq_div_pow]
  norm_num
  refine ⟨?_, ?_, ?_, ?_, ?_⟩ <;> omega

/-- Witness for C6: the orange pixel R=255, G=128, B=0. -/
theorem pack_pixel_channels_witness :
    pack_pixel 255 128 0 < 2 ^ 32 ∧
      (pack_pixel 255 128 0 >>> 24) &&& 0xFF = 0xFF ∧
      (pack_pixel 255 128 0 >>> 16) &&& 0xFF = 255 ∧
      (pack_pixel 255 128 0 >>> 8) &&& 0xFF = 128 ∧
      pack_pixel 255 128 0 &&& 0xFF = 0 ∧
      pack_pixel 255 128 0 = 0xFFFF8000 :=
  pack_pixel_channels 255 128 0 (by decide) (by decide) (by decide)

/-! ## Rounding -/

theorem is_rounding_id : is_rounding id :=
  ⟨fun _ _ h => h, fun _ _ _ _ _ => rfl⟩

theorem rounding_int {rnd : ℚ → ℚ} (h : is_rounding rnd) (n : Int) (hn : |n| ≤ 2 ^ 24) :
    rnd (n : ℚ) = (n : ℚ) := by
  have := h.2 n 0 hn (by norm_num) (by norm_num)
  simpa using this

theorem rounding_nat {rnd : ℚ → ℚ} (h : is_rounding rnd) (n : Nat) (hn : n ≤ 2 ^ 24) :
    rnd (n : ℚ) = (n : ℚ) := by
  have := rounding_int h (n : Int) (by rw [abs_of_nonneg (by positivity)]; exact_mod_cast hn)
  simpa using this

theorem rounding_zero {rnd : ℚ → ℚ} (h : is_rounding rnd) : rnd 0 = 0 := by
  simpa using rounding_nat h 0 (by norm_num)

theorem rounding_one {rnd : ℚ → ℚ} (h : is_rounding rnd) : rnd 1 = 1 := by
  simpa using rounding_nat h 1 (by norm_num)

theorem rounding_ofNat {rnd : ℚ → ℚ} (h : is_rounding rnd) (n : Nat) [n.AtLeastTwo]
    (hn : n ≤ 2 ^ 24) : rnd (OfNat.ofNat n) = (OfNat.ofNat n : ℚ) := by
  simpa using rounding_nat h n hn

theorem fp_round_fin (rnd : ℚ → ℚ) (q : ℚ) :
    fp_t.round rnd (fp_t.fin q) = fp_t.fin (rnd q) := rfl

/-! ## Rounding to binary32 -/

theorem round_even_intCast (n : Int) : round_even (n : ℚ) = n := by
  simp [round_even]

theorem round_even_ge_floor (q : ℚ) : ⌊q⌋ ≤ round_even q := by
  unfold round_even
  split_ifs <;> omega

theorem round_even_le_floor_succ (q : ℚ) : round_even q ≤ ⌊q⌋ + 1 := by
  unfold round_even
  split_ifs <;> omega

theorem round_even_mono {x y : ℚ} (h : x ≤ y) : round_even x ≤ round_even y := by
  have hf : ⌊x⌋ ≤ ⌊y⌋ := Int.floor_le_floor h
  rcases lt_or_eq_of_le hf with hlt | heq
  · calc round_even x ≤ ⌊x⌋ + 1 := round_even_le_floor_succ x
      _ ≤ ⌊y⌋ := hlt
      _ ≤ round_even y := round_even_ge_floor y
  · unfold round_even
    rw [heq]
    have hxy : 2 * (x - (⌊y⌋ : ℚ)) ≤ 2 * (y - (⌊y⌋ : ℚ)) := by linarith
    split_ifs <;> first | omega | (exfalso; linarith)

theorem round_even_neg (q : ℚ) : round_even (-q) = -round_even q := by
  by_cases hq : (⌊q⌋ : ℚ) = q
  · rw [← hq, ← Int.cast_neg, round_even_intCast, round_even_intCast]
  · have hlt : (⌊q⌋ : ℚ) < q := lt_of_le_of_ne (Int.floor_le q) hq
    have hlt2 : q < (⌊q⌋ : ℚ) + 1 := Int.lt_floor_add_one q
    have hfl : ⌊-q⌋ = -⌊q⌋ - 1 := by
      rw [Int.floor_eq_iff]
      push_cast
      constructor <;> linarith
    unfold round_even
    rw [hfl]
    push_cast
    split_ifs <;> first | omega | (exfalso; linarith)

theorem round_even_le {q : ℚ} {n : Int} (h : q ≤ n) : round_even q ≤ n := by
  have := round_even_mono h
  rwa [round_even_intCast] at this

theorem le_round_even {q : ℚ} {n : Int} (h : (n : ℚ) ≤ q) : n ≤ round_even q := by
  have := round_even_mono h
  rwa [round_even_intCast] at this

theorem ulp_exp32_neg (q : ℚ) : ulp_exp32 (-q) = ulp_exp32 q := by
  simp [ulp_exp32]

theorem round32_neg (q : ℚ) : round32 (-q) = -round32 q := by
  simp only [round32, ulp_exp32_neg, neg_div, round_even_neg]
  push_cast
  ring

theorem round32_zero : round32 0 = 0 := by
  simp [round32, round_even]

theorem round32_nonneg {q : ℚ} (h : 0 ≤ q) : 0 ≤ round32 q := by
  unfold round32
  have hp : (0 : ℚ) < 2 ^ ulp_exp32 q := zpow_pos (by norm_num) _
  have h0 : (0 : Int) ≤ round_even (q / 2 ^ ulp_exp32 q) :=
    le_round_even (by simpa using div_nonneg h (le_of_lt hp))
  have : (0 : ℚ) ≤ (round_even (q / 2 ^ ulp_exp32 q) : ℚ) := by exact_mod_cast h0
  positivity

theorem round32_nonpos {q : ℚ} (h : q ≤ 0) : round32 q ≤ 0 := by
  have := round32_nonneg (neg_nonneg.mpr h)
  rw [round32_neg] at this
  linarith

theorem zpow_add_24 (s : Int) : (2 : ℚ) ^ (s + 24) = 16777216 * 2 ^ s := by
  rw [zpow_add₀ (by norm_num)]
  norm_num
  ring

theorem zpow_add_23 (s : Int) : (2 : ℚ) ^ (s + 23) = 8388608 * 2 ^ s := by
  rw [zpow_add₀ (by norm_num)]
  norm_num
  ring

/-- A positive value rounds to at most the next power of two above its binade. -/
theorem round32_le {q : ℚ} (h : 0 < q) : round32 q ≤ 2 ^ (ulp_exp32 q + 24) := by
  have hp : (0 : ℚ) < 2 ^ ulp_exp32 q := zpow_pos (by norm_num) _
  have hlog : q < (2 : ℚ) ^ (Int.log 2 q + 1) := by
    simpa using Int.lt_zpow_succ_log_self (by norm_num : 1 < 2) q
  have hE : Int.log 2 q + 1 ≤ ulp_exp32 q + 24 := by
    simp only [ulp_exp32, abs_of_pos h]
    have := le_max_left (Int.log 2 q) (-126)
    omega
  have hq : q ≤ (2 : ℚ) ^ (ulp_exp32 q + 24) :=
    le_trans (le_of_lt hlog) (zpow_le_zpow_right₀ (by norm_num) hE)
  have hdiv : q / 2 ^ ulp_exp32 q ≤ (((2 : Int) ^ 24 : Int) : ℚ) := by
    rw [div_le_iff₀ hp]
    push_cast
    rw [zpow_add_24] at hq
    linarith
  have hr : round_even (q / 2 ^ ulp_exp32 q) ≤ 2 ^ 24 := round_even_le hdiv
  have hrq : (round_even (q / 2 ^ ulp_exp32 q) : ℚ) ≤ 2 ^ 24 := by exact_mod_cast hr
  unfold round32
  calc (round_even (q / 2 ^ ulp_exp32 q) : ℚ) * 2 ^ ulp_exp32 q
      ≤ 2 ^ 24 * 2 ^ ulp_exp32 q := mul_le_mul_of_nonneg_right hrq (le_of_lt hp)
    _ = 2 ^ (ulp_exp32 q + 24) := by
      rw [zpow_add_24]; norm_num

/-- A positive normal value rounds to at least the power of two below it. -/
theorem le_round32 {q : ℚ} (h : 0 < q) (hn : -126 ≤ Int.log 2 q) :
    2 ^ (ulp_exp32 q + 23) ≤ round32 q := by
  have hp : (0 : ℚ) < 2 ^ ulp_exp32 q := zpow_pos (by norm_num) _
  have hlog : (2 : ℚ) ^ Int.log 2 q ≤ q := by
    simpa using Int.zpow_log_le_self (by norm_num : 1 < 2) h
  have hE : ulp_exp32 q + 23 = Int.log 2 q := by
    simp only [ulp_exp32, abs_of_pos h]
    rw [max_eq_left hn]
    omega
  have hdiv : ((((2 : Int) ^ 23 : Int)) : ℚ) ≤ q / 2 ^ ulp_exp32 q := by
    rw [le_div_iff₀ hp]
    push_cast
    rw [← hE, zpow_add_23] at hlog
    linarith
  have hr : 2 ^ 23 ≤ round_even (q / 2 ^ ulp_exp32 q) := le_round_even hdiv
  have hrq : (2 : ℚ) ^ 23 ≤ (round_even (q / 2 ^ ulp_exp32 q) : ℚ) := by exact_mod_cast hr
  unfold round32
  calc (2 : ℚ) ^ (ulp_exp32 q + 23) = 2 ^ 23 * 2 ^ ulp_exp32 q := by
        rw [zpow_add_23]; norm_num
    _ ≤ (round_even (q / 2 ^ ulp_exp32 q) : ℚ) * 2 ^ ulp_exp32 q :=
        mul_le_mul_of_nonneg_right hrq (le_of_lt hp)

theorem round32_mono_pos {x y : ℚ} (hx : 0 < x) (h : x ≤ y) : round32 x ≤ round32 y := by
  have hy : 0 < y := lt_of_lt_of_le hx h
  have hlog : Int.log 2 x ≤ Int.log 2 y := Int.log_mono_right hx h
  have hs : ulp_exp32 x ≤ ulp_exp32 y := by
    simp only [ulp_exp32, abs_of_pos hx, abs_of_pos hy]
    have := max_le_max hlog (le_refl (-126 : Int))
    omega
  rcases lt_or_eq_of_le hs with hlt | heq
  · have hn : -126 ≤ Int.log 2 y := by
      simp only [ulp_exp32, abs_of_pos hx, abs_of_pos hy] at hlt
      by_contra hc
      rw [max_eq_right (by omega : Int.log 2 y ≤ -126)] at hlt
      have := le_max_right (Int.log 2 x) (-126)
      omega
    calc round32 x ≤ 2 ^ (ulp_exp32 x + 24) := round32_le hx
      _ ≤ 2 ^ (ulp_exp32 y + 23) := zpow_le_zpow_right₀ (by norm_num) (by omega)
      _ ≤ round32 y := le_round32 hy hn
  · unfold round32
    rw [heq]
    have hp : (0 : ℚ) < 2 ^ ulp_exp32 y := zpow_pos (by norm_num) _
    have hd : x / 2 ^ ulp_exp32 y ≤ y / 2 ^ ulp_exp32 y := div_le_div_of_nonneg_right h (le_of_lt hp)
    have hr := round_even_mono hd
    have hrq : (round_even (x / 2 ^ ulp_exp32 y) : ℚ) ≤ (round_even (y / 2 ^ ulp_exp32 y) : ℚ) := by
      exact_mod_cast hr
    exact mul_le_mul_of_nonneg_right hrq (le_of_lt hp)

theorem round32_mono : Monotone round32 := by
  intro x y h
  rcases lt_or_le 0 x with hx | hx
  · exact round32_mono_pos hx h
  · rcases le_or_lt 0 y with hy | hy
    · exact le_trans (round32_nonpos hx) (round32_nonneg hy)
    · have := round32_mono_pos (neg_pos.mpr hy) (neg_le_neg h)
      rw [round32_neg, round32_neg] at this
      linarith

/-- A value with fewer than 24 significant bits above the least subnormal exponent is
a binary32 value. -/
theorem round32_exact_lt (m e : Int) (hm : |m| < 2 ^ 24) (he : -149 ≤ e) :
    round32 ((m : ℚ) * (2 : ℚ) ^ e) = (m : ℚ) * (2 : ℚ) ^ e := by
  by_cases h0 : m = 0
  · simp [h0, round32_zero]
  have hpe : (0 : ℚ) < 2 ^ e := zpow_pos (by norm_num) _
  have habs : |(m : ℚ) * (2 : ℚ) ^ e| = |(m : ℚ)| * 2 ^ e := by
    rw [abs_mul, abs_of_pos hpe]
  have hmq : |(m : ℚ)| < 16777216 := by
    rw [← Int.cast_abs]
    exact_mod_cast hm
  have hmpos : (0 : ℚ) < |(m : ℚ)| := abs_pos.mpr (by exact_mod_cast h0)
  have hqpos : 0 < |(m : ℚ) * (2 : ℚ) ^ e| := by
    rw [habs]; positivity
  have hlog : Int.log 2 |(m : ℚ) * (2 : ℚ) ^ e| < e + 24 := by
    have := (Int.lt_zpow_iff_log_lt (R := ℚ) (by norm_num : 1 < 2) (x := e + 24) hqpos).mp
    apply this
    rw [habs]
    push_cast
    rw [zpow_add_24]
    exact mul_lt_mul_of_pos_right hmq hpe
  have hs : ulp_exp32 ((m : ℚ) * (2 : ℚ) ^ e) ≤ e := by
    simp only [ulp_exp32]
    have := max_le (by omega : Int.log 2 |(m : ℚ) * (2 : ℚ) ^ e| ≤ e + 23)
      (by omega : (-126 : Int) ≤ e + 23)
    omega
  unfold round32
  generalize ulp_exp32 ((m : ℚ) * (2 : ℚ) ^ e) = s at hs ⊢
  obtain ⟨k, hk⟩ : ∃ k : Nat, e = s + k := ⟨(e - s).toNat, by omega⟩
  have hps : (0 : ℚ) < 2 ^ s := zpow_pos (by norm_num) _
  have hsplit : (2 : ℚ) ^ e = 2 ^ k * 2 ^ s := by
    rw [hk, zpow_add₀ (by norm_num), zpow_natCast]
    ring
  have hdiv : (m : ℚ) * (2 : ℚ) ^ e / 2 ^ s = ((m * 2 ^ k : Int) : ℚ) := by
    rw [hsplit]
    push_cast
    field_simp
    ring
  rw [hdiv, round_even_intCast, hsplit]
  push_cast
  ring

theorem is_rounding_round32 : is_rounding round32 := by
  refine ⟨round32_mono, ?_⟩
  intro m e hm he _
  rcases lt_or_eq_of_le hm with hlt | heq
  · exact round32_exact_lt m e hlt he
  · obtain ⟨n, hn, hnm⟩ : ∃ n : Int, |n| < 2 ^ 24 ∧ m = 2 * n := by
      rcases abs_eq (by norm_num : (0 : Int) ≤ 2 ^ 24) |>.mp heq with h | h
      · exact ⟨2 ^ 23, by norm_num, by rw [h]; norm_num⟩
      · exact ⟨-2 ^ 23, by norm_num, by rw [h]; norm_num⟩
    have e2 : (m : ℚ) * (2 : ℚ) ^ e = (n : ℚ) * (2 : ℚ) ^ (e + 1) := by
      rw [hnm, zpow_add₀ (by norm_num)]
      push_cast
      ring
    rw [e2]
    exact round32_exact_lt n (e + 1) hn (by omega)

theorem round_even_eq_of_near {q : ℚ} {n : Int} (h1 : (n : ℚ) - 1 / 2 < q)
    (h2 : q < (n : ℚ) + 1 / 2) : round_even q = n := by
  have hf1 : (⌊q⌋ : ℚ) ≤ q := Int.floor_le q
  have hf2 : q < (⌊q⌋ : ℚ) + 1 := Int.lt_floor_add_one q
  have ha : ⌊q⌋ < n + 1 := by
    have : (⌊q⌋ : ℚ) < ((n + 1 : Int) : ℚ) := by push_cast; linarith
    exact_mod_cast this
  have hb : n - 2 < ⌊q⌋ := by
    have : ((n - 2 : Int) : ℚ) < (⌊q⌋ : ℚ) := by push_cast; linarith
    exact_mod_cast this
  have hfn : ⌊q⌋ = n ∨ ⌊q⌋ = n - 1 := by omega
  unfold round_even
  rcases hfn with e | e
  · rw [e]
    rw [if_pos (by linarith)]
  · rw [e]
    push_cast
    rw [if_neg (by linarith), if_pos (by linarith)]
    ring

theorem round_even_tie {q : ℚ} {n : Int} (h : q = (n : ℚ) + 1 / 2) :
    round_even q = if n % 2 = 0 then n else n + 1 := by
  have hfl : ⌊q⌋ = n := by
    rw [Int.floor_eq_iff]
    constructor <;> linarith
  unfold round_even
  rw [hfl, if_neg (by rw [h]; norm_num), if_neg (by rw [h]; norm_num)]

theorem round_even_tie_up {q : ℚ} {n : Int} (h : q = (n : ℚ) - 1 / 2)
    (hn : n % 2 = 0) : round_even q = n := by
  have h2 : q = ((n - 1 : Int) : ℚ) + 1 / 2 := by push_cast; linarith
  rw [round_even_tie h2, if_neg (by omega)]
  ring

theorem ulp_exp32_eq {q : ℚ} {s : Int} (hs : -149 ≤ s) (h1 : (2 : ℚ) ^ (s + 23) ≤ |q|)
    (h2 : |q| < (2 : ℚ) ^ (s + 24)) : ulp_exp32 q = s := by
  have hpos : 0 < |q| := lt_of_lt_of_le (zpow_pos (by norm_num) _) h1
  have ha : s + 23 ≤ Int.log 2 |q| := by
    apply (Int.zpow_le_iff_le_log (R := ℚ) (by norm_num : 1 < 2) hpos).mp
    simpa using h1
  have hb : Int.log 2 |q| < s + 24 := by
    apply (Int.lt_zpow_iff_log_lt (R := ℚ) (by norm_num : 1 < 2) hpos).mp
    simpa using h2
  simp only [ulp_exp32]
  rw [max_eq_left (by omega)]
  omega

/-- The binary32 value of `q` from the exponent `s` of its last place and the nearest
multiple `n * 2 ^ s`. -/
theorem round32_eval {q : ℚ} {s n : Int} (hs : -149 ≤ s) (h1 : (2 : ℚ) ^ (s + 23) ≤ |q|)
    (h2 : |q| < (2 : ℚ) ^ (s + 24)) (hn : round_even (q / 2 ^ s) = n) :
    round32 q = (n : ℚ) * 2 ^ s := by
  unfold round32
  rw [ulp_exp32_eq hs h1 h2, hn]

/-! ## The per-pixel kernels: the view-plane mapping -/

theorem fp_lt_of_le_of_ne {a b : fp_t} (h : a ≤ b) (hne : a ≠ b) : a < b := by
  cases a <;> cases b <;> simp_all [fp_lt_iff, fp_le_iff, fp_t.lt, fp_t.le]
  exact lt_of_le_of_ne h hne

theorem fp_not_lt_of_le {a b : fp_t} (h : a ≤ b) : ¬ b < a := by
  cases a <;> cases b <;> simp_all [fp_lt_iff, fp_le_iff, fp_t.lt, fp_t.le]

/-- Once the running best is the hit `res` at distance `d`, slots that do not hit strictly
below `d` leave it unchanged. -/
theorem intersect_scan_keep (r : ray) (d : fp_t) (res : intersect_result) :
    ∀ gs : List geometry,
      (∀ g ∈ gs, (g.intersect r).is_hit = true → ¬ (g.intersect r).distance < d) →
      scene_storage.intersect_scan r gs d res = res := by
  intro gs
  induction gs with
  | nil => intro _; rfl
  | cons a gs ih =>
    intro h
    have hc : ¬ ((a.intersect r).is_hit = true ∧ (a.intersect r).distance < d) :=
      fun hc => h a (List.mem_cons_self _ _) hc.1 hc.2
    simp only [scene_storage.intersect_scan]
    rw [if_neg hc]
    exact ih (fun g hg => h g (List.mem_cons_of_mem _ hg))

/-- The slot at index `i` wins the scan when it hits strictly below the running
`min_dist`, every hit at a lower index is strictly farther, and no hit at a higher index
is strictly nearer. -/
theorem intersect_scan_winner (r : ray) (g : geometry)
    (hh : (g.intersect r).is_hit = true) :
    ∀ (gs : List geometry) (i : Nat) (min_dist : fp_t) (min_result : intersect_result),
      gs[i]? = some g → (g.intersect r).distance < min_dist →
      (∀ j g2, j < i → gs[j]? = some g2 → (g2.intersect r).is_hit = true →
        (g.intersect r).distance < (g2.intersect r).distance) →
      (∀ j g2, i < j → gs[j]? = some g2 → (g2.intersect r).is_hit = true →
        ¬ (g2.intersect r).distance < (g.intersect r).distance) →
      scene_storage.intersect_scan r gs min_dist min_result = g.intersect r := by
  intro gs
  induction gs with
  | nil => intro i _ _ hg; simp at hg
  | cons a gs ih =>
    intro i min_dist min_result hg hlt hlow hhigh
    cases i with
    | zero =>
      simp only [List.getElem?_cons_zero, Option.some.injEq] at hg
      subst hg
      simp only [scene_storage.intersect_scan]
      rw [if_pos ⟨hh, hlt⟩]
      apply intersect_scan_keep
      intro g2 hg2 hh2
      obtain ⟨j, hj⟩ := List.getElem?_of_mem hg2
      exact hhigh (j + 1) g2 (by omega) (by simpa using hj) hh2
    | succ i =>
      simp only [List.getElem?_cons_succ] at hg
      have hlow2 : ∀ j g2, j < i → gs[j]? = some g2 → (g2.intersect r).is_hit = true →
          (g.intersect r).distance < (g2.intersect r).distance :=
        fun j g2 hj hj2 => hlow (j + 1) g2 (by omega) (by simpa using hj2)
      have hhigh2 : ∀ j g2, i < j → gs[j]? = some g2 → (g2.intersect r).is_hit = true →
          ¬ (g2.intersect r).distance < (g.intersect r).distance :=
        fun j g2 hj hj2 => hhigh (j + 1) g2 (by omega) (by simpa using hj2)
      simp only [scene_storage.intersect_scan]
      by_cases hc : (a.intersect r).is_hit = true ∧ (a.intersect r).distance < min_dist
      · rw [if_pos hc]
        exact ih i _ _ hg (hlow 0 a (by omega) (by simp) hc.1) hlow2 hhigh2
      · rw [if_neg hc]
        exact ih i _ _ hg hlt hlow2 hhigh2

/-- C11 (as stated, refuted): two primitives report a hit with the same minimum distance,
`+infinity`; the lowest index among those attaining the minimum is 0, yet
`scene_storage::intersect` returns the default result, not the result of primitive 0. -/
theorem intersect_tie_at_infinity :
    (∀ g ∈ (scene_storage.mk [hit_with fp_t.pinf 1, hit_with fp_t.pinf 2]).geometries,
        (g.intersect ray0).is_hit = true ∧
        ((hit_with fp_t.pinf 1).intersect ray0).distance ≤ (g.intersect ray0).distance) ∧
      (scene_storage.mk [hit_with fp_t.pinf 1, hit_with fp_t.pinf 2]).intersect ray0 =
        intersect_result.init ∧
      (scene_storage.mk [hit_with fp_t.pinf 1, hit_with fp_t.pinf 2]).intersect ray0 ≠
        (hit_with fp_t.pinf 1).intersect ray0 := by
  have hval : (scene_storage.mk [hit_with fp_t.pinf 1, hit_with fp_t.pinf 2]).intersect ray0 =
      intersect_result.init := by
    rw [intersect_eq_scan]
    simp [scene_storage.intersect_scan, hit_with, fp_lt_iff, fp_t.lt]
  refine ⟨?_, hval, ?_⟩
  · intro g hg
    simp only [List.mem_cons, List.mem_singleton, List.not_mem_nil, or_false] at hg
    rcases hg with rfl | rfl <;> exact ⟨rfl, by decide⟩
  · rw [hval]
    simp [intersect_result.init, hit_with]

/-- C11 (amended): for every geometry registry and every ray, if the primitive at index
`i` reports a hit whose distance is below `+infinity` and is the minimum over all
primitives' hits, and no primitive at a lower index reports a hit at that same distance,
then `scene_storage::intersect` returns, in every field, the result of that primitive: among
several primitives attaining the minimum the first scanned wins. -/
theorem intersect_tie_lowest_index (s : scene_storage) (r : ray) (i : Nat) (g : geometry)
    (hg : s.geometries[i]? = some g)
    (hh : (g.intersect r).is_hit = true)
    (hfin : (g.intersect r).distance < fp_t.pinf)
    (hmin : ∀ g2 ∈ s.geometries, (g2.intersect r).is_hit = true →
      (g.intersect r).distance ≤ (g2.intersect r).distance)
    (hfirst : ∀ j g2, j < i → s.geometries[j]? = some g2 → (g2.intersect r).is_hit = true →
      (g2.intersect r).distance ≠ (g.intersect r).distance) :
    s.intersect r = g.intersect r := by
  rw [intersect_eq_scan]
  apply intersect_scan_winner r g hh s.geometries i _ _ hg hfin
  · intro j g2 hj hj2 hh2
    exact fp_lt_of_le_of_ne (hmin g2 (List.getElem?_mem hj2) hh2)
      (fun e => hfirst j g2 hj hj2 hh2 e.symm)
  · intro j g2 _ hj2 hh2
    exact fp_not_lt_of_le (hmin g2 (List.getElem?_mem hj2) hh2)

/-- Witness for C11 (amended): hits at distances 5, 3, 3 with materials 0, 1, 2: the
result is the one of index 1. -/
theorem intersect_tie_lowest_index_witness :
    (scene_storage.mk [hit_with 5 0, hit_with 3 1, hit_with 3 2]).intersect ray0 =
      (hit_with 3 1).intersect ray0 :=
  intersect_tie_lowest_index (scene_storage.mk [hit_with 5 0, hit_with 3 1, hit_with 3 2])
    ray0 1 (hit_with 3 1) rfl rfl (by decide)
    (by
      intro g2 hg2 _
      simp only [List.mem_cons, List.mem_singleton, List.not_mem_nil, or_false] at hg2
      rcases hg2 with rfl | rfl | rfl
      · simp [hit_with, fp_le_iff, fp_t.le, fp_ofNat_def]; norm_num
      · simp [hit_with, fp_le_iff, fp_t.le, fp_ofNat_def]
      · simp [hit_with, fp_le_iff, fp_t.le, fp_ofNat_def])
    (by
      intro j g2 hj hj2 _
      have hj0 : j = 0 := by omega
      subst hj0
      simp only [List.getElem?_cons_zero, Option.some.injEq] at hj2
      subst hj2
      simp [hit_with, fp_ofNat_def])

/-! ## The demo scene: material ids -/

/-- C14: for the scene built by the constructor of `scene_storage` (slot 0: sphere with
material 0, slot 1: sphere with material 1, slot 2: plane with material 2), assuming each
primitive's intersect reports, on a hit, the material id it was constructed with, every hit
returned by `scene_storage::intersect` has its material in `0..2`, inside the
`material_count = 3` slots that `material_storage::sample` and `get_reflectiveness` index
without a check. -/
theorem demo_scene_material_in_bounds (sphere plane : vector3 → fp_t → Int → geometry)
    (hs : ∀ c rad m r, ((sphere c rad m).intersect r).is_hit = true →
      ((sphere c rad m).intersect r).material = m)
    (hp : ∀ n d m r, ((plane n d m).intersect r).is_hit = true →
      ((plane n d m).intersect r).material = m) (r : ray)
    (hh : ((scene_storage.construct sphere plane).intersect r).is_hit = true) :
    0 ≤ ((scene_storage.construct sphere plane).intersect r).material ∧
      ((scene_storage.construct sphere plane).intersect r).material <
        material_storage.material_count := by
  rw [intersect_eq_scan] at hh ⊢
  rcases intersect_scan_cases r (scene_storage.construct sphere plane).geometries fp_t.pinf
      intersect_result.init with ⟨heq, _⟩ | ⟨g, hg, heq, hgh, _, _⟩
  · rw [heq] at hh
    exact absurd hh (by decide)
  · rw [heq]
    simp only [scene_storage.construct, List.mem_cons, List.mem_singleton, List.not_mem_nil,
      or_false] at hg
    rcases hg with rfl | rfl | rfl
    · rw [hs _ _ _ _ hgh]; decide
    · rw [hs _ _ _ _ hgh]; decide
    · rw [hp _ _ _ _ hgh]; decide

theorem hit_if_down_material (d : fp_t) (m : Int) (r : ray)
    (h : ((hit_if_down d m).intersect r).is_hit = true) :
    ((hit_if_down d m).intersect r).material = m := by
  simp only [hit_if_down] at h ⊢
  by_cases hz : r.direction.z < 0
  · rw [if_pos hz]
  · rw [if_neg hz] at h
    exact absurd h (by decide)

/-- Witness for C14: spheres and a plane that are hit (at distances 5 and 3) only by the
rays that go down the `z` axis and answer the other rays with the default record, whose
material is 0 whatever the id they were built with. -/
theorem demo_scene_material_in_bounds_witness :
    0 ≤ ((scene_storage.construct (fun _ _ m => hit_if_down 5 m)
          (fun _ _ m => hit_if_down 3 m)).intersect ray0).material ∧
      ((scene_storage.construct (fun _ _ m => hit_if_down 5 m)
          (fun _ _ m => hit_if_down 3 m)).intersect ray0).material <
        material_storage.material_count :=
  demo_scene_material_in_bounds (fun _ _ m => hit_if_down 5 m) (fun _ _ m => hit_if_down 3 m)
    (fun _ _ m r h => hit_if_down_material 5 m r h)
    (fun _ _ m r h => hit_if_down_material 3 m r h) ray0
    (by
      have hz : ray0.direction.z < 0 := by
        simp [ray0, fp_lt_iff, fp_t.lt, fp_zero_def, fp_one_def, fp_neg_def, fp_t.neg]
      have e : ∀ (d : fp_t) (m : Int),
          (hit_if_down d m).intersect ray0 = (hit_with d m).intersect ray0 := by
        intro d m
        simp only [hit_if_down, hit_with]
        rw [if_pos hz]
      rw [intersect_eq_scan]
      simp only [scene_storage.construct, scene_storage.intersect_scan, e]
      simp [hit_with, fp_lt_iff, fp_t.lt, fp_ofNat_def]
      split_ifs <;> rfl)

/-! ## The visualisation kernels: channel values -/

theorem to_uint_fin_of_bounds (q : ℚ) (n : Nat) (h0 : 0 ≤ q) (h1 : q < n + 1)
    (hn : n < 2 ^ 32) : to_uint (fp_t.fin q) ≤ n := by
  have hfl : ⌊q⌋ < (n : Int) + 1 := by
    rw [Int.floor_lt]
    push_cast
    exact h1
  have hfl0 : 0 ≤ ⌊q⌋ := Int.floor_nonneg.mpr h0
  simp only [to_uint]
  have : Int.toNat ⌊q⌋ ≤ n := by omega
  have h2 : Int.toNat ⌊q⌋ % 2 ^ 32 = Int.toNat ⌊q⌋ := Nat.mod_eq_of_lt (by omega)
  omega

theorem to_uint_fin_natCast (n : Nat) (hn : n < 2 ^ 32) : to_uint (fp_t.fin (n : ℚ)) = n := by
  simp only [to_uint, Int.floor_natCast, Int.toNat_ofNat]
  exact Nat.mod_eq_of_lt hn

/-- The channel `static_cast<unsigned int>((c + 1) * 128)` of `render_normal` when both
exact results, the sum `s` and the product `n`, are integers of at most 24 bits. -/
theorem render_normal_channel_at {rnd : ℚ → ℚ} (h : is_rounding rnd) (q : ℚ) (s n : Nat)
    (hs : s ≤ 2 ^ 24) (hn : n ≤ 2 ^ 24) (h1 : q + 1 = (s : ℚ)) (h2 : (s : ℚ) * 128 = (n : ℚ)) :
    to_uint (fp_t.round rnd (fp_t.round rnd (fp_t.fin q + 1) * 128)) = n := by
  have e1 : fp_t.round rnd (fp_t.fin q + 1) = fp_t.fin (s : ℚ) := by
    simp only [fp_one_def, fp_add_def, fp_t.add, fp_t.round]
    rw [h1, rounding_nat h s hs]
  have e2 : fp_t.round rnd (fp_t.fin (s : ℚ) * 128) = fp_t.fin (n : ℚ) := by
    simp only [fp_ofNat_def, fp_mul_def, fp_t.mul, fp_t.round]
    rw [h2, rounding_nat h n hn]
  rw [e1, e2, to_uint_fin_natCast n (by omega)]

theorem render_normal_rgb_miss (rnd : ℚ → ℚ) (ir : intersect_result)
    (h : ir.is_hit = false) : render_normal_rgb rnd ir = (0, 0, 0) := by
  simp [render_normal_rgb, h]

/-- C12 (the code at the failing input): for the hit at the front pole of the sphere of
`render_normal`, whose normal (0,0,1) has unit length, and for every rounding of the scalar
type, the blue channel computed as the truncation of `(normal.z + 1) * 128` is 256, not a
value in `0..255`; in the packed pixel `0xFF808100` it sets the lowest bit of the green
byte (129 instead of 128) and leaves the blue byte 0. -/
theorem render_normal_channel_overflow (rnd : ℚ → ℚ) (h : is_rounding rnd) :
    hit_front_pole.is_hit = true ∧
      hit_front_pole.normal.dot hit_front_pole.normal = 1 ∧
      render_normal_rgb rnd hit_front_pole = (128, 128, 256) ∧
      render_normal rnd ⟨fun _ _ => ray0⟩ ⟨fun _ => hit_front_pole⟩ 640 640 320 320 =
        pack_pixel 128 128 256 ∧
      pack_pixel 128 128 256 = 0xFF808100 ∧
      (pack_pixel 128 128 256 >>> 8) &&& 0xFF = 129 ∧
      pack_pixel 128 128 256 &&& 0xFF = 0 := by
  have hrgb : render_normal_rgb rnd hit_front_pole = (128, 128, 256) := by
    have h0 : to_uint (fp_t.round rnd (fp_t.round rnd ((0 : fp_t) + 1) * 128)) = 128 := by
      rw [fp_zero_def]
      exact render_normal_channel_at h 0 1 128 (by norm_num) (by norm_num) (by norm_num)
        (by norm_num)
    have h1 : to_uint (fp_t.round rnd (fp_t.round rnd ((1 : fp_t) + 1) * 128)) = 256 := by
      rw [fp_one_def]
      exact render_normal_channel_at h 1 2 256 (by norm_num) (by norm_num) (by norm_num)
        (by norm_num)
    simp only [render_normal_rgb, hit_front_pole, if_true, h0, h1]
  refine ⟨rfl, ?_, hrgb, ?_, by decide, by decide, by decide⟩
  · simp [hit_front_pole, vector3.dot, fp_one_def, fp_zero_def, fp_mul_def, fp_add_def,
      fp_t.mul, fp_t.add]
  · simp only [render_normal, hrgb]

/-- Witness for C12: `float` arithmetic. -/
theorem render_normal_channel_overflow_witness :
    render_normal_rgb round32 hit_front_pole = (128, 128, 256) ∧
      render_normal round32 ⟨fun _ _ => ray0⟩ ⟨fun _ => hit_front_pole⟩ 640 640 320 320 =
        pack_pixel 128 128 256 :=
  ⟨(render_normal_channel_overflow round32 is_rounding_round32).2.2.1,
    (render_normal_channel_overflow round32 is_rounding_round32).2.2.2.1⟩

/-! ## The visualisation kernels: depth -/

theorem saturate_fin (q : ℚ) : saturate (fp_t.fin q) = fp_t.fin (max 0 (min q 1)) := by
  simp only [saturate]
  by_cases h0 : q < 0
  · rw [if_pos h0, max_eq_left]
    exact le_trans (min_le_left _ _) (le_of_lt h0)
  · rw [if_neg h0]
    by_cases h1 : 1 < q
    · rw [if_pos h1, min_eq_right (le_of_lt h1), max_eq_right (by norm_num)]
    · rw [if_neg h1, min_eq_left (not_lt.mp h1), max_eq_right (not_lt.mp h0)]

/-- The depth value from the clamped quotient `s`: `trunc(255 - 255 * s)`, both operations
rounded. -/
theorem depth_value_of_sat (rnd rndf : ℚ → ℚ) (d : fp_t) (s : ℚ)
    (h : saturate (fp_t.round rndf (fp_t.round rnd (d / 20))) = fp_t.fin s) :
    depth_value rnd rndf d = to_uint (fp_t.fin (rndf (255 - rndf (255 * s)))) := by
  simp only [depth_value, h]
  simp [fp_ofNat_def, fp_mul_def, fp_sub_def, fp_t.mul, fp_t.add, fp_t.neg, fp_t.round,
    sub_eq_add_neg]

theorem depth_value_fin (rnd rndf : ℚ → ℚ) (q : ℚ) :
    depth_value rnd rndf (fp_t.fin q) =
      to_uint (fp_t.fin (rndf (255 - rndf (255 * max 0 (min (rndf (rnd (q / 20))) 1))))) := by
  apply depth_value_of_sat
  have hdiv : fp_t.fin q / (20 : fp_t) = fp_t.fin (q / 20) := by
    simp [fp_ofNat_def, fp_div_def, fp_t.div]
  rw [hdiv, fp_round_fin, fp_round_fin, saturate_fin]

theorem depth_value_of_sat_zero {rnd rndf : ℚ → ℚ} (hf : is_rounding rndf) (d : fp_t)
    (h : saturate (fp_t.round rndf (fp_t.round rnd (d / 20))) = fp_t.fin 0) :
    depth_value rnd rndf d = 255 := by
  rw [depth_value_of_sat rnd rndf d 0 h]
  have e : rndf (255 - rndf (255 * 0)) = ((255 : Nat) : ℚ) := by
    rw [mul_zero, rounding_zero hf, sub_zero]
    simpa using rounding_nat hf 255 (by norm_num)
  rw [e, to_uint_fin_natCast 255 (by norm_num)]

theorem depth_value_of_sat_one {rnd rndf : ℚ → ℚ} (hf : is_rounding rndf) (d : fp_t)
    (h : saturate (fp_t.round rndf (fp_t.round rnd (d / 20))) = fp_t.fin 1) :
    depth_value rnd rndf d = 0 := by
  rw [depth_value_of_sat rnd rndf d 1 h]
  have e255 : rndf 255 = 255 := rounding_ofNat hf 255 (by norm_num)
  have e : rndf (255 - rndf (255 * 1)) = ((0 : Nat) : ℚ) := by
    rw [mul_one, e255, sub_self, rounding_zero hf]
    simp
  rw [e, to_uint_fin_natCast 0 (by norm_num)]

theorem depth_value_pinf {rnd rndf : ℚ → ℚ} (hf : is_rounding rndf) :
    depth_value rnd rndf fp_t.pinf = 0 := by
  apply depth_value_of_sat_one hf
  simp [fp_ofNat_def, fp_div_def, fp_t.div, fp_t.round, saturate]

theorem depth_value_ninf {rnd rndf : ℚ → ℚ} (hf : is_rounding rndf) :
    depth_value rnd rndf fp_t.ninf = 255 := by
  apply depth_value_of_sat_zero hf
  simp [fp_ofNat_def, fp_div_def, fp_t.div, fp_t.round, saturate]

theorem depth_value_nan {rnd rndf : ℚ → ℚ} (hf : is_rounding rndf) :
    depth_value rnd rndf fp_t.nan = 255 := by
  apply depth_value_of_sat_zero hf
  simp [fp_ofNat_def, fp_div_def, fp_t.div, fp_t.round, saturate]

/-- The rounded value `255 - 255 * s` stays between 0 and 255 for a clamped `s`. -/
theorem depth_scalar_bounds {rndf : ℚ → ℚ} (hf : is_rounding rndf) (s : ℚ) (h0 : 0 ≤ s)
    (h1 : s ≤ 1) :
    0 ≤ rndf (255 - rndf (255 * s)) ∧ rndf (255 - rndf (255 * s)) ≤ 255 := by
  have e0 : rndf 0 = 0 := rounding_zero hf
  have e255 : rndf 255 = 255 := rounding_ofNat hf 255 (by norm_num)
  have hp0 : 0 ≤ rndf (255 * s) := by
    have := hf.1 (by nlinarith : (0 : ℚ) ≤ 255 * s)
    rwa [e0] at this
  have hp1 : rndf (255 * s) ≤ 255 := by
    have := hf.1 (by nlinarith : 255 * s ≤ (255 : ℚ))
    rwa [e255] at this
  constructor
  · have := hf.1 (by linarith : (0 : ℚ) ≤ 255 - rndf (255 * s))
    rwa [e0] at this
  · have := hf.1 (by linarith : 255 - rndf (255 * s) ≤ (255 : ℚ))
    rwa [e255] at this

theorem depth_value_le {rnd rndf : ℚ → ℚ} (hf : is_rounding rndf) (d : fp_t) :
    depth_value rnd rndf d ≤ 255 := by
  cases d with
  | fin q =>
    rw [depth_value_fin]
    have hb := depth_scalar_bounds hf (max 0 (min (rndf (rnd (q / 20))) 1))
      (le_max_left _ _) (max_le (by norm_num) (min_le_right _ _))
    apply to_uint_fin_of_bounds _ 255 hb.1 _ (by norm_num)
    push_cast
    linarith [hb.2]
  | pinf => rw [depth_value_pinf hf]; omega
  | ninf => rw [depth_value_ninf hf]
  | nan => rw [depth_value_nan hf]

theorem to_uint_fin_mono (a b : ℚ) (h : a ≤ b) :
    to_uint (fp_t.fin a) ≤ to_uint (fp_t.fin b) ∨ 2 ^ 32 ≤ Int.toNat ⌊b⌋ := by
  by_cases hb : Int.toNat ⌊b⌋ < 2 ^ 32
  · left
    have hfl : ⌊a⌋ ≤ ⌊b⌋ := Int.floor_le_floor h
    have h1 : Int.toNat ⌊a⌋ ≤ Int.toNat ⌊b⌋ := Int.toNat_le_toNat hfl
    simp only [to_uint]
    rw [Nat.mod_eq_of_lt hb, Nat.mod_eq_of_lt (lt_of_le_of_lt h1 hb)]
    exact h1
  · right; omega

theorem depth_value_anti_fin {rnd rndf : ℚ → ℚ} (hr : is_rounding rnd)
    (hf : is_rounding rndf) (a b : ℚ) (h : a ≤ b) :
    depth_value rnd rndf (fp_t.fin b) ≤ depth_value rnd rndf (fp_t.fin a) := by
  rw [depth_value_fin, depth_value_fin]
  have hq : rndf (rnd (a / 20)) ≤ rndf (rnd (b / 20)) :=
    hf.1 (hr.1 (by linarith))
  have hm : max 0 (min (rndf (rnd (a / 20))) 1) ≤ max 0 (min (rndf (rnd (b / 20))) 1) :=
    max_le_max (le_refl _) (min_le_min hq (le_refl _))
  have hp : rndf (255 * max 0 (min (rndf (rnd (a / 20))) 1)) ≤
      rndf (255 * max 0 (min (rndf (rnd (b / 20))) 1)) := hf.1 (by linarith)
  have hb := depth_scalar_bounds hf (max 0 (min (rndf (rnd (a / 20))) 1))
    (le_max_left _ _) (max_le (by norm_num) (min_le_right _ _))
  rcases to_uint_fin_mono (rndf (255 - rndf (255 * max 0 (min (rndf (rnd (b / 20))) 1))))
      (rndf (255 - rndf (255 * max 0 (min (rndf (rnd (a / 20))) 1))))
      (hf.1 (by linarith)) with hle | hbig
  · exact hle
  · exfalso
    have hfl : ⌊rndf (255 - rndf (255 * max 0 (min (rndf (rnd (a / 20))) 1)))⌋ < 256 := by
      rw [Int.floor_lt]; push_cast; linarith [hb.2]
    omega

theorem render_depth_rgb_miss (rnd rndf : ℚ → ℚ) (ir : intersect_result)
    (h : ir.is_hit = false) : render_depth_rgb rnd rndf ir = (0, 0, 0) := by
  simp [render_depth_rgb, h]

/-- C13: in `render_depth` (`max_depth = 20`), for every rounding of `fp_t` and of `float`
and every pixel whose ray hits at distance `d`, the three channels are the same value
`trunc(255 - 255 * clamp01(d / 20))`, computed with the kernel's rounded operations; that
value lies in `0..255`, is 255 for `d <= 0`, is 0 for `d >= 20` and is non-increasing in
`d`; for a miss the pixel is `0xFF000000`. -/
theorem render_depth_channels (rnd rndf : ℚ → ℚ) (hr : is_rounding rnd)
    (hf : is_rounding rndf) (camera : perspective_camera) (scene : geometry)
    (width height x y : Int) (ir : intersect_result) (d d2 : fp_t) :
    (ir.is_hit = true →
        render_depth_rgb rnd rndf ir =
          (depth_value rnd rndf ir.distance, depth_value rnd rndf ir.distance,
            depth_value rnd rndf ir.distance)) ∧
      (ir.is_hit = false → render_depth_rgb rnd rndf ir = (0, 0, 0)) ∧
      ((scene.intersect (camera.generate_ray (sx rnd x (xshift width 640) 640)
          (sy rnd y (yshift height 640) 640))).is_hit = true →
        render_depth rnd rndf camera scene width height x y =
          pack_pixel
            (depth_value rnd rndf (scene.intersect (camera.generate_ray
              (sx rnd x (xshift width 640) 640) (sy rnd y (yshift height 640) 640))).distance)
            (depth_value rnd rndf (scene.intersect (camera.generate_ray
              (sx rnd x (xshift width 640) 640) (sy rnd y (yshift height 640) 640))).distance)
            (depth_value rnd rndf (scene.intersect (camera.generate_ray
              (sx rnd x (xshift width 640) 640)
              (sy rnd y (yshift height 640) 640))).distance)) ∧
      ((scene.intersect (camera.generate_ray (sx rnd x (xshift width 640) 640)
          (sy rnd y (yshift height 640) 640))).is_hit = false →
        render_depth rnd rndf camera scene width height x y = 0xFF000000) ∧
      depth_value rnd rndf d ≤ 255 ∧
      (d ≤ 0 → depth_value rnd rndf d = 255) ∧
      (20 ≤ d → depth_value rnd rndf d = 0) ∧
      (d ≤ d2 → depth_value rnd rndf d2 ≤ depth_value rnd rndf d) := by
  refine ⟨?_, ?_, ?_, ?_, depth_value_le hf d, ?_, ?_, ?_⟩
  · intro h; simp [render_depth_rgb, h, depth_value]
  · intro h; simp [render_depth_rgb, h]
  · intro h; simp [render_depth, render_depth_rgb, h, depth_value]
  · intro h
    have hrgb := render_depth_rgb_miss rnd rndf _ h
    simp only [render_depth, hrgb]
    decide
  · intro h
    cases d with
    | fin q =>
      have hq : q ≤ 0 := by simpa [fp_le_iff, fp_t.le, fp_zero_def] using h
      apply depth_value_of_sat_zero hf
      have hdiv : fp_t.fin q / (20 : fp_t) = fp_t.fin (q / 20) := by
        simp [fp_ofNat_def, fp_div_def, fp_t.div]
      have h1 : rnd (q / 20) ≤ 0 := by
        have := hr.1 (by linarith : q / 20 ≤ (0 : ℚ))
        rwa [rounding_zero hr] at this
      have h2 : rndf (rnd (q / 20)) ≤ 0 := by
        have := hf.1 h1
        rwa [rounding_zero hf] at this
      rw [hdiv, fp_round_fin, fp_round_fin, saturate_fin, max_eq_left]
      exact le_trans (min_le_left _ _) h2
    | pinf => simp [fp_le_iff, fp_t.le, fp_zero_def] at h
    | ninf => exact depth_value_ninf hf
    | nan => exact depth_value_nan hf
  · intro h
    cases d with
    | fin q =>
      have hq : 20 ≤ q := by simpa [fp_le_iff, fp_t.le, fp_ofNat_def] using h
      apply depth_value_of_sat_one hf
      have hdiv : fp_t.fin q / (20 : fp_t) = fp_t.fin (q / 20) := by
        simp [fp_ofNat_def, fp_div_def, fp_t.div]
      have h1 : 1 ≤ rnd (q / 20) := by
        have := hr.1 (by linarith : (1 : ℚ) ≤ q / 20)
        rwa [rounding_one hr] at this
      have h2 : 1 ≤ rndf (rnd (q / 20)) := by
        have := hf.1 h1
        rwa [rounding_one hf] at this
      rw [hdiv, fp_round_fin, fp_round_fin, saturate_fin, min_eq_right h2,
        max_eq_right (by norm_num)]
    | pinf => exact depth_value_pinf hf
    | ninf => simp [fp_le_iff, fp_t.le, fp_ofNat_def] at h
    | nan => simp [fp_le_iff, fp_t.le, fp_ofNat_def] at h
  · intro h
    cases d with
    | fin a =>
      cases d2 with
      | fin b =>
        exact depth_value_anti_fin hr hf a b (by simpa [fp_le_iff, fp_t.le] using h)
      | pinf => rw [depth_value_pinf hf]; omega
      | ninf => simp [fp_le_iff, fp_t.le] at h
      | nan => simp [fp_le_iff, fp_t.le] at h
    | pinf =>
      cases d2 with
      | pinf => exact le_refl _
      | _ => simp [fp_le_iff, fp_t.le] at h
    | ninf => rw [depth_value_ninf hf]; exact depth_value_le hf d2
    | nan => simp [fp_le_iff, fp_t.le] at h

/-- In `float` arithmetic the depth value at the distance `10526881 / 2 ^ 27`, the `float`
nearest to `20 / 255`, is 254: the quotient by 20 rounds to `8421505 / 2 ^ 31`, its
product with 255 rounds to 1, and `255 - 1 = 254`. -/
theorem depth_value_float_example :
    depth_value round32 round32 hit_near.distance = 254 := by
  have h := is_rounding_round32
  have hq1 : round32 (10526881 / 134217728 / 20) = 8421505 / 2147483648 := by
    have h := round32_eval (q := 10526881 / 134217728 / 20) (s := -31) (n := 8421505)
      (by norm_num) (by rw [abs_of_pos (by norm_num)]; norm_num)
      (by rw [abs_of_pos (by norm_num)]; norm_num)
      (round_even_eq_of_near (by norm_num) (by norm_num))
    rw [h]
    norm_num
  have hq2 : round32 (8421505 / 2147483648) = 8421505 / 2147483648 := by
    have h := round32_exact_lt 8421505 (-31) (by norm_num) (by norm_num)
    have e : ((8421505 : Int) : ℚ) * (2 : ℚ) ^ (-31 : Int) = 8421505 / 2147483648 := by
      norm_num
    rw [e] at h
    exact h
  have hsat : max (0 : ℚ) (min (8421505 / 2147483648) 1) = 8421505 / 2147483648 := by
    rw [min_eq_left (by norm_num), max_eq_right (by norm_num)]
  have hp : round32 (255 * (8421505 / 2147483648)) = 1 := by
    have h := round32_eval (q := 255 * (8421505 / 2147483648)) (s := -23) (n := 8388608)
      (by norm_num) (by rw [abs_of_pos (by norm_num)]; norm_num)
      (by rw [abs_of_pos (by norm_num)]; norm_num)
      (round_even_eq_of_near (by norm_num) (by norm_num))
    rw [h]
    norm_num
  have hv : round32 (255 - 1) = ((254 : Nat) : ℚ) := by
    have := rounding_nat h 254 (by norm_num)
    norm_num at this ⊢
    exact this
  show depth_value round32 round32 (fp_t.fin (10526881 / 134217728)) = 254
  rw [depth_value_fin, hq1, hq2, hsat, hp, hv, to_uint_fin_natCast 254 (by norm_num)]

/-- Witness for C13: `float` arithmetic, a hit at the `float` nearest to `20 / 255`, which
gives the channels 254, and the distances 0 and 20. -/
theorem render_depth_channels_witness :
    render_depth_rgb round32 round32 hit_near = (254, 254, 254) ∧
      depth_value round32 round32 0 = 255 ∧ depth_value round32 round32 20 = 0 ∧
      depth_value round32 round32 20 ≤ depth_value round32 round32 0 :=
  have h := render_depth_channels round32 round32 is_rounding_round32 is_rounding_round32
    ⟨fun _ _ => ray0⟩ ⟨fun _ => hit_near⟩ 640 640 0 0 hit_near 0 20
  have h2 := render_depth_channels round32 round32 is_rounding_round32 is_rounding_round32
    ⟨fun _ _ => ray0⟩ ⟨fun _ => hit_near⟩ 640 640 0 0 hit_near 20 20
  have h0 : (0 : fp_t) ≤ 0 := by simp [fp_le_iff, fp_t.le, fp_zero_def]
  have h20 : (20 : fp_t) ≤ 20 := by simp [fp_le_iff, fp_t.le, fp_ofNat_def]
  have h020 : (0 : fp_t) ≤ 20 := by simp [fp_le_iff, fp_t.le, fp_zero_def, fp_ofNat_def]
  ⟨by rw [h.1 rfl, depth_value_float_example], h.2.2.2.2.2.1 h0, h2.2.2.2.2.2.2.1 h20,
    h.2.2.2.2.2.2.2 h020⟩

/-! ## The integrator with rounded operations: one loop iteration -/

theorem reflection_loop_rounded_done (rnd : ℚ → ℚ) (scene : scene_storage)
    (materials : material_storage) (max_reflect i : Int) (i_ray : ray) (final_color : color)
    (reflectiveness : fp_t) (h : ¬ i < max_reflect) :
    reflection_loop_rounded rnd scene materials max_reflect i i_ray final_color
      reflectiveness = final_color := by
  rw [reflection_loop_rounded, if_neg h]

theorem reflection_loop_rounded_miss (rnd : ℚ → ℚ) (scene : scene_storage)
    (materials : material_storage) (max_reflect i : Int) (i_ray : ray) (final_color : color)
    (reflectiveness : fp_t) (h : i < max_reflect)
    (hm : (scene.intersect i_ray).is_hit = false) :
    reflection_loop_rounded rnd scene materials max_reflect i i_ray final_color
      reflectiveness = final_color := by
  rw [reflection_loop_rounded, if_pos h]
  simp [hm]

theorem reflection_loop_rounded_stop (rnd : ℚ → ℚ) (scene : scene_storage)
    (materials : material_storage) (max_reflect i : Int) (i_ray : ray) (final_color : color)
    (reflectiveness : fp_t) (h : i < max_reflect)
    (hh : (scene.intersect i_ray).is_hit = true)
    (hs : ¬ fp_t.round rnd (reflectiveness *
      materials.get_reflectiveness (scene.intersect i_ray).material) > 0) :
    reflection_loop_rounded rnd scene materials max_reflect i i_ray final_color
      reflectiveness =
      color.radd rnd final_color
        (color.rscale rnd
          (color.rscale rnd
            (materials.sample (scene.intersect i_ray).material i_ray
              (scene.intersect i_ray).position (scene.intersect i_ray).normal)
            (fp_t.round rnd
              (1 - materials.get_reflectiveness (scene.intersect i_ray).material)))
          reflectiveness) := by
  rw [reflection_loop_rounded, if_pos h]
  simp only [hh, if_true]
  rw [if_neg hs]

theorem reflection_loop_rounded_continue (rnd : ℚ → ℚ) (scene : scene_storage)
    (materials : material_storage) (max_reflect i : Int) (i_ray : ray) (final_color : color)
    (reflectiveness : fp_t) (h : i < max_reflect)
    (hh : (scene.intersect i_ray).is_hit = true)
    (hs : fp_t.round rnd (reflectiveness *
      materials.get_reflectiveness (scene.intersect i_ray).material) > 0) :
    reflection_loop_rounded rnd scene materials max_reflect i i_ray final_color
      reflectiveness =
      reflection_loop_rounded rnd scene materials max_reflect (i + 1)
        (ray.mk (scene.intersect i_ray).position
          (bounce_direction rnd (scene.intersect i_ray).normal i_ray.direction))
        (color.radd rnd final_color
          (color.rscale rnd
            (color.rscale rnd
              (materials.sample (scene.intersect i_ray).material i_ray
                (scene.intersect i_ray).position (scene.intersect i_ray).normal)
              (fp_t.round rnd
                (1 - materials.get_reflectiveness (scene.intersect i_ray).material)))
            reflectiveness))
        (fp_t.round rnd (reflectiveness *
          materials.get_reflectiveness (scene.intersect i_ray).material)) := by
  rw [reflection_loop_rounded, if_pos h]
  simp only [hh, if_true]
  rw [if_pos hs]

/-! ## The integrator with rounded operations: bounds -/

theorem rounding_unit {rnd : ℚ → ℚ} (h : is_rounding rnd) {x : ℚ} (h0 : 0 ≤ x)
    (h1 : x ≤ 1) : 0 ≤ rnd x ∧ rnd x ≤ 1 := by
  have a := h.1 h0
  have b := h.1 h1
  rw [rounding_zero h] at a
  rw [rounding_one h] at b
  exact ⟨a, b⟩

theorem rounding_nonneg {rnd : ℚ → ℚ} (h : is_rounding rnd) {x : ℚ} (h0 : 0 ≤ x) :
    0 ≤ rnd x := by
  have a := h.1 h0
  rwa [rounding_zero h] at a

/-- One iteration on one channel: from the channel `f` of `final_color` and the
reflectiveness `p` carried so far, with `f + p <= 1 + 5 k e`, to the next values, with
`f1 + p1 <= 1 + 5 (k + 1) e`; `e` bounds what a rounding adds to a value of `[0, 2]`. -/
theorem reflection_step_bound {rnd : ℚ → ℚ} (h : is_rounding rnd) {e : ℚ}
    (herr : ∀ x : ℚ, 0 ≤ x → x ≤ 2 → rnd x ≤ x + e) (f p r c : ℚ) (k : Nat)
    (hf : 0 ≤ f) (hp0 : 0 ≤ p) (hp1 : p ≤ 1) (hfp : f + p ≤ 1 + 5 * k * e)
    (hr0 : 0 ≤ r) (hr1 : r ≤ 1) (hc0 : 0 ≤ c) (hc1 : c ≤ 1)
    (hk : 5 * ((k : ℚ) + 1) * e ≤ 1) :
    0 ≤ rnd (f + rnd (rnd (c * rnd (1 - r)) * p)) ∧
      0 ≤ rnd (p * r) ∧ rnd (p * r) ≤ 1 ∧
      rnd (f + rnd (rnd (c * rnd (1 - r)) * p)) + rnd (p * r) ≤
        1 + 5 * ((k + 1 : Nat) : ℚ) * e := by
  have he : 0 ≤ e := by
    have := herr 0 (le_refl _) (by norm_num)
    rw [rounding_zero h] at this
    linarith
  have ha := rounding_unit h (by linarith : (0 : ℚ) ≤ 1 - r) (by linarith : 1 - r ≤ 1)
  have ha2 := herr (1 - r) (by linarith) (by linarith)
  have hca0 : 0 ≤ c * rnd (1 - r) := mul_nonneg hc0 ha.1
  have hca1 : c * rnd (1 - r) ≤ rnd (1 - r) := by
    have := mul_le_mul_of_nonneg_right hc1 ha.1
    linarith
  have hb := rounding_unit h hca0 (by linarith [ha.2])
  have hb2 := herr (c * rnd (1 - r)) hca0 (by linarith [ha.2])
  have hbp0 : 0 ≤ rnd (c * rnd (1 - r)) * p := mul_nonneg hb.1 hp0
  have hbp1 : rnd (c * rnd (1 - r)) * p ≤ 1 := by
    have := mul_le_mul hb.2 hp1 hp0 (by norm_num : (0 : ℚ) ≤ 1)
    linarith
  have hbp2 : rnd (c * rnd (1 - r)) * p ≤ (1 - r) * p + 2 * e := by
    have h1 : rnd (c * rnd (1 - r)) ≤ 1 - r + 2 * e := by linarith
    have h2 := mul_le_mul_of_nonneg_right h1 hp0
    have h3 : 2 * e * p ≤ 2 * e := by
      have := mul_le_mul_of_nonneg_left hp1 (by linarith : (0 : ℚ) ≤ 2 * e)
      linarith
    linarith
  have ht := rounding_unit h hbp0 hbp1
  have ht2 := herr (rnd (c * rnd (1 - r)) * p) hbp0 (by linarith)
  have hrp : 0 ≤ r * p := mul_nonneg hr0 hp0
  have hsum0 : 0 ≤ f + rnd (rnd (c * rnd (1 - r)) * p) := by linarith [ht.1]
  have hsum2 : f + rnd (rnd (c * rnd (1 - r)) * p) ≤ 2 := by
    have : (0 : ℚ) ≤ (k : ℚ) := Nat.cast_nonneg k
    nlinarith
  have hf2 := herr _ hsum0 hsum2
  have hpr0 : 0 ≤ p * r := mul_nonneg hp0 hr0
  have hpr1 : p * r ≤ 1 := by
    have := mul_le_mul hp1 hr1 hr0 (by norm_num : (0 : ℚ) ≤ 1)
    linarith
  have hq := rounding_unit h hpr0 hpr1
  have hq2 := herr (p * r) hpr0 (by linarith)
  refine ⟨rounding_nonneg h hsum0, hq.1, hq.2, ?_⟩
  push_cast
  nlinarith

theorem fp_fin_mul (a b : ℚ) : fp_t.fin a * fp_t.fin b = fp_t.fin (a * b) := by
  simp [fp_mul_def, fp_t.mul]

theorem fp_fin_add (a b : ℚ) : fp_t.fin a + fp_t.fin b = fp_t.fin (a + b) := by
  simp [fp_add_def, fp_t.add]

theorem fp_one_sub_fin (r : ℚ) : (1 : fp_t) - fp_t.fin r = fp_t.fin (1 - r) := by
  simp [fp_one_def, fp_sub_def, fp_t.add, fp_t.neg, sub_eq_add_neg]

theorem fp_fin_le_fin (a b : ℚ) : fp_t.fin a ≤ fp_t.fin b ↔ a ≤ b := by
  simp [fp_le_iff, fp_t.le]

theorem fp_fin_pos (a : ℚ) : fp_t.fin a > 0 ↔ 0 < a := by
  simp [GT.gt, fp_lt_iff, fp_t.lt, fp_zero_def]

/-- A scalar between 0 and 1 is a number. -/
theorem fp_unit_fin {x : fp_t} (h0 : 0 ≤ x) (h1 : x ≤ 1) :
    ∃ q : ℚ, x = fp_t.fin q ∧ 0 ≤ q ∧ q ≤ 1 := by
  cases x with
  | fin q =>
    refine ⟨q, rfl, ?_, ?_⟩
    · simpa [fp_le_iff, fp_t.le, fp_zero_def] using h0
    · simpa [fp_le_iff, fp_t.le, fp_one_def] using h1
  | pinf => simp [fp_le_iff, fp_t.le, fp_one_def] at h1
  | ninf => simp [fp_le_iff, fp_t.le, fp_zero_def] at h0
  | nan => simp [fp_le_iff, fp_t.le, fp_zero_def] at h0

/-- The state of the rounded loop after one shaded bounce, on numbers. -/
theorem reflection_step_fin (rnd : ℚ → ℚ) (f1 f2 f3 p r c1 c2 c3 : ℚ) :
    color.radd rnd ⟨fp_t.fin f1, fp_t.fin f2, fp_t.fin f3⟩
        (color.rscale rnd
          (color.rscale rnd ⟨fp_t.fin c1, fp_t.fin c2, fp_t.fin c3⟩
            (fp_t.round rnd (1 - fp_t.fin r)))
          (fp_t.fin p)) =
      ⟨fp_t.fin (rnd (f1 + rnd (rnd (c1 * rnd (1 - r)) * p))),
        fp_t.fin (rnd (f2 + rnd (rnd (c2 * rnd (1 - r)) * p))),
        fp_t.fin (rnd (f3 + rnd (rnd (c3 * rnd (1 - r)) * p)))⟩ ∧
      fp_t.round rnd (fp_t.fin p * fp_t.fin r) = fp_t.fin (rnd (p * r)) := by
  simp only [color.radd, color.rscale, fp_one_sub_fin, fp_round_fin, fp_fin_mul, fp_fin_add,
    and_self]

theorem reflection_loop_rounded_bound {rnd : ℚ → ℚ} (h : is_rounding rnd) {e : ℚ}
    (herr : ∀ x : ℚ, 0 ≤ x → x ≤ 2 → rnd x ≤ x + e) (scene : scene_storage)
    (materials : material_storage) (max_reflect : Int)
    (hN : 5 * (max_reflect.toNat : ℚ) * e ≤ 1)
    (hr : ∀ id : Int, 0 ≤ materials.get_reflectiveness id ∧
      materials.get_reflectiveness id ≤ 1)
    (hs : ∀ (id : Int) (i_ray : ray) (p n : vector3),
      (0 ≤ (materials.sample id i_ray p n).r ∧ (materials.sample id i_ray p n).r ≤ 1) ∧
      (0 ≤ (materials.sample id i_ray p n).g ∧ (materials.sample id i_ray p n).g ≤ 1) ∧
      (0 ≤ (materials.sample id i_ray p n).b ∧ (materials.sample id i_ray p n).b ≤ 1)) :
    ∀ (d k : Nat) (i_ray : ray) (f1 f2 f3 p : ℚ), k + d = max_reflect.toNat →
      0 ≤ p → p ≤ 1 →
      (0 ≤ f1 ∧ f1 + p ≤ 1 + 5 * (k : ℚ) * e) →
      (0 ≤ f2 ∧ f2 + p ≤ 1 + 5 * (k : ℚ) * e) →
      (0 ≤ f3 ∧ f3 + p ≤ 1 + 5 * (k : ℚ) * e) →
      ∃ g1 g2 g3 : ℚ,
        reflection_loop_rounded rnd scene materials max_reflect k i_ray
          ⟨fp_t.fin f1, fp_t.fin f2, fp_t.fin f3⟩ (fp_t.fin p) =
            ⟨fp_t.fin g1, fp_t.fin g2, fp_t.fin g3⟩ ∧
        (0 ≤ g1 ∧ g1 ≤ 1 + 5 * (max_reflect.toNat : ℚ) * e) ∧
        (0 ≤ g2 ∧ g2 ≤ 1 + 5 * (max_reflect.toNat : ℚ) * e) ∧
        (0 ≤ g3 ∧ g3 ≤ 1 + 5 * (max_reflect.toNat : ℚ) * e) := by
  have he : 0 ≤ e := by
    have := herr 0 (le_refl _) (by norm_num)
    rw [rounding_zero h] at this
    linarith
  have hmono : ∀ k : Nat, k ≤ max_reflect.toNat →
      1 + 5 * (k : ℚ) * e ≤ 1 + 5 * (max_reflect.toNat : ℚ) * e := by
    intro k hk
    have : (k : ℚ) ≤ (max_reflect.toNat : ℚ) := by exact_mod_cast hk
    nlinarith
  intro d
  induction d with
  | zero =>
    intro k i_ray f1 f2 f3 p hk hp0 hp1 h1 h2 h3
    have hnot : ¬ (k : Int) < max_reflect := by omega
    rw [reflection_loop_rounded_done _ _ _ _ _ _ _ _ hnot]
    have hb := hmono k (by omega)
    exact ⟨f1, f2, f3, rfl, ⟨h1.1, by linarith [h1.2]⟩, ⟨h2.1, by linarith [h2.2]⟩,
      ⟨h3.1, by linarith [h3.2]⟩⟩
  | succ d ih =>
    intro k i_ray f1 f2 f3 p hk hp0 hp1 h1 h2 h3
    have hlt : (k : Int) < max_reflect := by omega
    by_cases hh : (scene.intersect i_ray).is_hit = true
    · obtain ⟨r, hrq, hr0, hr1⟩ :=
        fp_unit_fin (hr (scene.intersect i_ray).material).1
          (hr (scene.intersect i_ray).material).2
      have hsm := hs (scene.intersect i_ray).material i_ray (scene.intersect i_ray).position
        (scene.intersect i_ray).normal
      obtain ⟨c1, hc1q, hc10, hc11⟩ := fp_unit_fin hsm.1.1 hsm.1.2
      obtain ⟨c2, hc2q, hc20, hc21⟩ := fp_unit_fin hsm.2.1.1 hsm.2.1.2
      obtain ⟨c3, hc3q, hc30, hc31⟩ := fp_unit_fin hsm.2.2.1 hsm.2.2.2
      have hsample : materials.sample (scene.intersect i_ray).material i_ray
          (scene.intersect i_ray).position (scene.intersect i_ray).normal =
          ⟨fp_t.fin c1, fp_t.fin c2, fp_t.fin c3⟩ := by
        rw [← hc1q, ← hc2q, ← hc3q]
      have hk1 : 5 * ((k : ℚ) + 1) * e ≤ 1 := by
        have : ((k : ℚ) + 1) ≤ (max_reflect.toNat : ℚ) := by
          have : k + 1 ≤ max_reflect.toNat := by omega
          exact_mod_cast this
        nlinarith
      have b1 := reflection_step_bound h herr f1 p r c1 k h1.1 hp0 hp1 h1.2 hr0 hr1 hc10
        hc11 hk1
      have b2 := reflection_step_bound h herr f2 p r c2 k h2.1 hp0 hp1 h2.2 hr0 hr1 hc20
        hc21 hk1
      have b3 := reflection_step_bound h herr f3 p r c3 k h3.1 hp0 hp1 h3.2 hr0 hr1 hc30
        hc31 hk1
      have hstep := reflection_step_fin rnd f1 f2 f3 p r c1 c2 c3
      by_cases hpos : fp_t.round rnd (fp_t.fin p *
          materials.get_reflectiveness (scene.intersect i_ray).material) > 0
      · rw [reflection_loop_rounded_continue _ _ _ _ _ _ _ _ hlt hh hpos, hsample, hrq,
          hstep.1, hstep.2]
        have := ih (k + 1) (ray.mk (scene.intersect i_ray).position
            (bounce_direction rnd (scene.intersect i_ray).normal i_ray.direction))
          (rnd (f1 + rnd (rnd (c1 * rnd (1 - r)) * p)))
          (rnd (f2 + rnd (rnd (c2 * rnd (1 - r)) * p)))
          (rnd (f3 + rnd (rnd (c3 * rnd (1 - r)) * p))) (rnd (p * r)) (by omega)
          b1.2.1 b1.2.2.1 ⟨b1.1, by exact_mod_cast b1.2.2.2⟩
          ⟨b2.1, by exact_mod_cast b2.2.2.2⟩ ⟨b3.1, by exact_mod_cast b3.2.2.2⟩
        simpa using this
      · rw [reflection_loop_rounded_stop _ _ _ _ _ _ _ _ hlt hh hpos, hsample, hrq,
          hstep.1]
        have hb := hmono (k + 1) (by omega)
        clear hpos
        refine ⟨_, _, _, rfl, ⟨b1.1, ?_⟩, ⟨b2.1, ?_⟩, ⟨b3.1, ?_⟩⟩
        · linarith [b1.2.1, b1.2.2.2]
        · linarith [b2.2.1, b2.2.2.2]
        · linarith [b3.2.1, b3.2.2.2]
    · have hm : (scene.intersect i_ray).is_hit = false := by simpa using hh
      rw [reflection_loop_rounded_miss _ _ _ _ _ _ _ _ hlt hm]
      have hb := hmono k (by omega)
      exact ⟨f1, f2, f3, rfl, ⟨h1.1, by linarith [h1.2]⟩, ⟨h2.1, by linarith [h2.2]⟩,
        ⟨h3.1, by linarith [h3.2]⟩⟩

/-! ## Rounding to binary32: the error of one operation -/

theorem round_even_le_add_half (q : ℚ) : (round_even q : ℚ) ≤ q + 1 / 2 := by
  have hf : (⌊q⌋ : ℚ) ≤ q := Int.floor_le q
  unfold round_even
  split_ifs with h1 h2 h3
  · linarith
  · push_cast; linarith
  · linarith
  · push_cast; linarith

/-- A value of `[0, 2]` grows by at most `2 ^ -24` when rounded to binary32. -/
theorem round32_error_le (x : ℚ) (h0 : 0 ≤ x) (h2 : x ≤ 2) :
    round32 x ≤ x + 1 / 2 ^ 24 := by
  rcases eq_or_lt_of_le h0 with hz | hpos
  · rw [← hz, round32_zero]; norm_num
  rcases eq_or_lt_of_le h2 with he | hlt
  · rw [he]
    have := rounding_ofNat is_rounding_round32 2 (by norm_num)
    rw [this]; norm_num
  have hlog : Int.log 2 x < 1 := by
    apply (Int.lt_zpow_iff_log_lt (R := ℚ) (by norm_num : 1 < 2) hpos).mp
    simpa using hlt
  have hs : ulp_exp32 x ≤ -23 := by
    simp only [ulp_exp32, abs_of_pos hpos]
    have := max_le (by omega : Int.log 2 x ≤ 0) (by norm_num : (-126 : Int) ≤ 0)
    omega
  have hp : (0 : ℚ) < 2 ^ ulp_exp32 x := zpow_pos (by norm_num) _
  have hp2 : (2 : ℚ) ^ ulp_exp32 x ≤ 1 / 2 ^ 23 := by
    have := zpow_le_zpow_right₀ (by norm_num : (1 : ℚ) ≤ 2) hs
    have e : (2 : ℚ) ^ (-23 : Int) = 1 / 2 ^ 23 := by norm_num
    rw [e] at this
    exact this
  unfold round32
  have hre := round_even_le_add_half (x / 2 ^ ulp_exp32 x)
  have hmul := mul_le_mul_of_nonneg_right hre (le_of_lt hp)
  have hexp : (x / 2 ^ ulp_exp32 x + 1 / 2) * 2 ^ ulp_exp32 x = x + 2 ^ ulp_exp32 x / 2 := by
    field_simp
    ring
  rw [hexp] at hmul
  have : (2 : ℚ) ^ ulp_exp32 x / 2 ≤ 1 / 2 ^ 24 := by
    have e : (1 : ℚ) / 2 ^ 24 = 1 / 2 ^ 23 / 2 := by norm_num
    rw [e]
    linarith
  linarith

/-- A number written with fewer than 24 significant bits is a binary32 value. -/
theorem round32_fix {q : ℚ} (m e : Int) (hm : |m| < 2 ^ 24) (he : -149 ≤ e)
    (hq : q = (m : ℚ) * (2 : ℚ) ^ e) : round32 q = q := by
  rw [hq]
  exact round32_exact_lt m e hm he

/-! ## The integrator with rounded operations: a run in `float` arithmetic -/

theorem scene_three_intersect (r : ray) :
    scene_three.intersect r = hit_by_origin.intersect r := by
  rw [intersect_eq_scan]
  have hh : (hit_by_origin.intersect r).is_hit = true ∧
      (hit_by_origin.intersect r).distance < fp_t.pinf := by
    simp only [hit_by_origin]
    split_ifs <;> simp [fp_lt_iff, fp_t.lt, fp_one_def]
  simp only [scene_three, scene_storage.intersect_scan]
  rw [if_pos hh]

theorem hit_by_origin_first (d : vector3) :
    scene_three.intersect ⟨⟨0, 0, 0⟩, d⟩ =
      { is_hit := true, distance := 1, position := ⟨0, 0, -1⟩, normal := ⟨0, 0, 1⟩,
        material := 0 } := by
  rw [scene_three_intersect]
  simp [hit_by_origin]

theorem hit_by_origin_second (d : vector3) :
    scene_three.intersect ⟨⟨0, 0, -1⟩, d⟩ =
      { is_hit := true, distance := 1, position := ⟨0, 0, -2⟩, normal := ⟨0, 0, 1⟩,
        material := 1 } := by
  rw [scene_three_intersect]
  simp [hit_by_origin, fp_neg_def, fp_t.neg, fp_one_def, fp_zero_def]

theorem hit_by_origin_third (d : vector3) :
    scene_three.intersect ⟨⟨0, 0, -2⟩, d⟩ =
      { is_hit := true, distance := 1, position := ⟨0, 0, -3⟩, normal := ⟨0, 0, 1⟩,
        material := 2 } := by
  rw [scene_three_intersect]
  simp [hit_by_origin, fp_neg_def, fp_t.neg, fp_one_def, fp_zero_def, fp_ofNat_def]

/-- One shaded bounce of the run on `scene_three` and `mats_three`, whose samples are
white. -/
theorem reflection_three_step (i : Int) (ry : ray) (ir : intersect_result) (f p r : ℚ)
    (hir : scene_three.intersect ry = ir) (hhit : ir.is_hit = true)
    (hm : mats_three.get_reflectiveness ir.material = fp_t.fin r) :
    (i < 3 → 0 < round32 (p * r) →
      reflection_loop_rounded round32 scene_three mats_three 3 i ry
          ⟨fp_t.fin f, fp_t.fin f, fp_t.fin f⟩ (fp_t.fin p) =
        reflection_loop_rounded round32 scene_three mats_three 3 (i + 1)
          (ray.mk ir.position (bounce_direction round32 ir.normal ry.direction))
          ⟨fp_t.fin (round32 (f + round32 (round32 (1 * round32 (1 - r)) * p))),
            fp_t.fin (round32 (f + round32 (round32 (1 * round32 (1 - r)) * p))),
            fp_t.fin (round32 (f + round32 (round32 (1 * round32 (1 - r)) * p)))⟩
          (fp_t.fin (round32 (p * r)))) ∧
    (i < 3 → ¬ 0 < round32 (p * r) →
      reflection_loop_rounded round32 scene_three mats_three 3 i ry
          ⟨fp_t.fin f, fp_t.fin f, fp_t.fin f⟩ (fp_t.fin p) =
        ⟨fp_t.fin (round32 (f + round32 (round32 (1 * round32 (1 - r)) * p))),
          fp_t.fin (round32 (f + round32 (round32 (1 * round32 (1 - r)) * p))),
          fp_t.fin (round32 (f + round32 (round32 (1 * round32 (1 - r)) * p)))⟩) := by
  have hsample : ∀ (id : Int) (a : ray) (b c : vector3),
      mats_three.sample id a b c = ⟨fp_t.fin 1, fp_t.fin 1, fp_t.fin 1⟩ := by
    intro id a b c
    simp [mats_three, material_storage.sample, fp_one_def]
  have hstep := reflection_step_fin round32 f f f p r 1 1 1
  have hh : (scene_three.intersect ry).is_hit = true := by rw [hir]; exact hhit
  constructor
  · intro hi hpos
    have hs : fp_t.round round32 (fp_t.fin p *
        mats_three.get_reflectiveness (scene_three.intersect ry).material) > 0 := by
      rw [hir, hm, hstep.2, fp_fin_pos]
      exact hpos
    rw [reflection_loop_rounded_continue _ _ _ _ _ _ _ _ hi hh hs, hsample, hir, hm,
      hstep.1, hstep.2]
  · intro hi hpos
    have hs : ¬ fp_t.round round32 (fp_t.fin p *
        mats_three.get_reflectiveness (scene_three.intersect ry).material) > 0 := by
      rw [hir, hm, hstep.2, fp_fin_pos]
      exact hpos
    rw [reflection_loop_rounded_stop _ _ _ _ _ _ _ _ hi hh hs, hsample, hir, hm, hstep.1]

theorem round32_one_sub_first :
    round32 (1 - 9723457 / 33554432) = 372359 / 524288 := by
  have h := round32_eval (q := 1 - 9723457 / 33554432) (s := -24) (n := 11915488)
    (by norm_num) (by rw [abs_of_pos (by norm_num)]; norm_num)
    (by rw [abs_of_pos (by norm_num)]; norm_num)
    (round_even_tie_up (by norm_num) (by norm_num))
  rw [h]; norm_num

theorem round32_one_sub_second :
    round32 (1 - 5768599 / 268435456) = 16416679 / 16777216 := by
  have h := round32_eval (q := 1 - 5768599 / 268435456) (s := -24) (n := 16416679)
    (by norm_num) (by rw [abs_of_pos (by norm_num)]; norm_num)
    (by rw [abs_of_pos (by norm_num)]; norm_num)
    (round_even_eq_of_near (by norm_num) (by norm_num))
  rw [h]; norm_num

theorem round32_second_term :
    round32 (16416679 / 16777216 * (9723457 / 33554432)) = 9514503 / 33554432 := by
  have h := round32_eval (q := 16416679 / 16777216 * (9723457 / 33554432)) (s := -25)
    (n := 9514503)
    (by norm_num) (by rw [abs_of_pos (by norm_num)]; norm_num)
    (by rw [abs_of_pos (by norm_num)]; norm_num)
    (round_even_eq_of_near (by norm_num) (by norm_num))
  rw [h]; norm_num

theorem round32_second_sum :
    round32 (372359 / 524288 + 9514503 / 33554432) = 4168185 / 4194304 := by
  have h := round32_eval (q := 372359 / 524288 + 9514503 / 33554432) (s := -24)
    (n := 16672740)
    (by norm_num) (by rw [abs_of_pos (by norm_num)]; norm_num)
    (by rw [abs_of_pos (by norm_num)]; norm_num)
    (round_even_tie_up (by norm_num) (by norm_num))
  rw [h]; norm_num

theorem round32_second_product :
    round32 (9723457 / 33554432 * (5768599 / 268435456)) = 13373071 / 2147483648 := by
  have h := round32_eval (q := 9723457 / 33554432 * (5768599 / 268435456)) (s := -31)
    (n := 13373071)
    (by norm_num) (by rw [abs_of_pos (by norm_num)]; norm_num)
    (by rw [abs_of_pos (by norm_num)]; norm_num)
    (round_even_eq_of_near (by norm_num) (by norm_num))
  rw [h]; norm_num

theorem round32_third_sum :
    round32 (4168185 / 4194304 + 13373071 / 2147483648) = 8388609 / 8388608 := by
  have h := round32_eval (q := 4168185 / 4194304 + 13373071 / 2147483648) (s := -23)
    (n := 8388609)
    (by norm_num) (by rw [abs_of_pos (by norm_num)]; norm_num)
    (by rw [abs_of_pos (by norm_num)]; norm_num)
    (round_even_eq_of_near (by norm_num) (by norm_num))
  rw [h]; norm_num

/-- The run of the rounded integrator in `float` arithmetic on `scene_three` and
`mats_three` with the bounce limit 3: every channel of the colour returned is
`8388609 / 8388608 = 1 + 2 ^ -23` (`0x1.000002p+0`). -/
theorem reflection_three_value :
    reflection_rounded round32 ray0 scene_three mats_three 3 =
      ⟨fp_t.fin (8388609 / 8388608), fp_t.fin (8388609 / 8388608),
        fp_t.fin (8388609 / 8388608)⟩ := by
  have h := is_rounding_round32
  have h1 : round32 1 = 1 := rounding_one h
  have h0 : round32 0 = 0 := rounding_zero h
  have fw0 : round32 (372359 / 524288) = 372359 / 524288 :=
    round32_fix 372359 (-19) (by norm_num) (by norm_num) (by norm_num)
  have fr0 : round32 (9723457 / 33554432) = 9723457 / 33554432 :=
    round32_fix 9723457 (-25) (by norm_num) (by norm_num) (by norm_num)
  have fw1 : round32 (16416679 / 16777216) = 16416679 / 16777216 :=
    round32_fix 16416679 (-24) (by norm_num) (by norm_num) (by norm_num)
  have fR2 : round32 (13373071 / 2147483648) = 13373071 / 2147483648 :=
    round32_fix 13373071 (-31) (by norm_num) (by norm_num) (by norm_num)
  have s1 := (reflection_three_step 0 ray0 _ 0 1 (9723457 / 33554432)
    (hit_by_origin_first _) rfl (by simp [mats_three, material_storage.get_reflectiveness])).1
    (by norm_num) (by rw [one_mul, fr0]; norm_num)
  have s2 := (reflection_three_step 1 ⟨⟨0, 0, -1⟩,
      bounce_direction round32 ⟨0, 0, 1⟩ ray0.direction⟩ _ (372359 / 524288)
      (9723457 / 33554432) (5768599 / 268435456)
    (hit_by_origin_second _) rfl (by simp [mats_three, material_storage.get_reflectiveness])).1
    (by norm_num) (by rw [round32_second_product]; norm_num)
  have s3 := (reflection_three_step 2 ⟨⟨0, 0, -2⟩,
      bounce_direction round32 ⟨0, 0, 1⟩
        (bounce_direction round32 ⟨0, 0, 1⟩ ray0.direction)⟩ _ (4168185 / 4194304)
      (13373071 / 2147483648) 0
    (hit_by_origin_third _) rfl
    (by simp [mats_three, material_storage.get_reflectiveness, fp_zero_def])).2
    (by norm_num) (by rw [mul_zero, h0]; norm_num)
  simp only [one_mul, mul_one, zero_add, sub_zero, round32_one_sub_first,
    round32_one_sub_second, round32_second_term, round32_second_sum,
    round32_second_product, round32_third_sum, fw0, fr0, fw1, fR2, h1] at s1 s2 s3
  unfold reflection_rounded
  have e0 : (color.mk 0 0 0 : color) = ⟨fp_t.fin 0, fp_t.fin 0, fp_t.fin 0⟩ := by
    simp [fp_zero_def]
  rw [e0, fp_one_def, s1]
  norm_num
  rw [s2]
  norm_num
  rw [s3]

theorem mats_three_unit (id : Int) :
    0 ≤ mats_three.get_reflectiveness id ∧ mats_three.get_reflectiveness id ≤ 1 := by
  simp only [mats_three, material_storage.get_reflectiveness]
  split_ifs <;> simp [fp_le_iff, fp_t.le, fp_zero_def, fp_one_def] <;> norm_num

theorem mats_three_sample (id : Int) (r : ray) (p n : vector3) :
    mats_three.sample id r p n = ⟨1, 1, 1⟩ := rfl

theorem fp_one_unit : (0 : fp_t) ≤ 1 ∧ (1 : fp_t) ≤ 1 := by
  simp [fp_le_iff, fp_t.le, fp_zero_def, fp_one_def]

/-- C15 (as stated, refuted): in `float` arithmetic, with the bounce limit 3 of
`render_reflection`, materials whose reflectiveness is `0x1.28bc82p-2`, `0x1.60165cp-6` and
0 (all in `[0, 1]`) and whose samples are white (every channel 1), every channel of the
colour that `reflection` returns is `1 + 2 ^ -23`, above 1, so the clamp of
`render_reflection` changes it. -/
theorem reflection_exceeds_one :
    (∀ id : Int, 0 ≤ mats_three.get_reflectiveness id ∧
        mats_three.get_reflectiveness id ≤ 1) ∧
      (∀ (id : Int) (r : ray) (p n : vector3), mats_three.sample id r p n = ⟨1, 1, 1⟩) ∧
      (reflection_rounded round32 ray0 scene_three mats_three 3).r =
        fp_t.fin (8388609 / 8388608) ∧
      ¬ (reflection_rounded round32 ray0 scene_three mats_three 3).r ≤ 1 ∧
      saturate (reflection_rounded round32 ray0 scene_three mats_three 3).r ≠
        (reflection_rounded round32 ray0 scene_three mats_three 3).r := by
  refine ⟨mats_three_unit, mats_three_sample, ?_, ?_, ?_⟩
  · rw [reflection_three_value]
  · rw [reflection_three_value]
    simp only [fp_one_def, fp_fin_le_fin]
    norm_num
  · rw [reflection_three_value]
    simp only [saturate]
    norm_num


theorem saturate_of_nonneg {g : ℚ} (h0 : 0 ≤ g) :
    saturate (fp_t.fin g) = fp_t.fin g ∨
      ((1 : fp_t) < fp_t.fin g ∧ saturate (fp_t.fin g) = 1) := by
  by_cases h1 : 1 < g
  · right
    refine ⟨by simpa [fp_lt_iff, fp_t.lt, fp_one_def] using h1, ?_⟩
    simp [saturate, not_lt.mpr h0, h1, fp_one_def]
  · left
    simp [saturate, not_lt.mpr h0, h1]

/-- C15 (amended): for every rounding of the scalar type, with `e` a bound on what one
rounding adds to a value of `[0, 2]` (`2 ^ -24` for `float`, 0 for exact arithmetic), for
every scene, initial ray and bounce limit `N` with `5 * N * e <= 1`: if every material's
reflectiveness lies in `[0, 1]` and every channel of every sample result lies in `[0, 1]`,
then every channel of the colour returned by `reflection` lies in `[0, 1 + 5 * N * e]`,
and the clamp of `render_reflection` either leaves the channel unchanged or lowers a
channel above 1 to 1. -/
theorem reflection_rounded_bounds (rnd : ℚ → ℚ) (h : is_rounding rnd) (e : ℚ)
    (herr : ∀ x : ℚ, 0 ≤ x → x ≤ 2 → rnd x ≤ x + e)
    (i_ray : ray) (scene : scene_storage) (materials : material_storage)
    (max_reflect : Int) (hN : 5 * (max_reflect.toNat : ℚ) * e ≤ 1)
    (hr : ∀ id : Int, 0 ≤ materials.get_reflectiveness id ∧
      materials.get_reflectiveness id ≤ 1)
    (hs : ∀ (id : Int) (i_ray : ray) (p n : vector3),
      (0 ≤ (materials.sample id i_ray p n).r ∧ (materials.sample id i_ray p n).r ≤ 1) ∧
      (0 ≤ (materials.sample id i_ray p n).g ∧ (materials.sample id i_ray p n).g ≤ 1) ∧
      (0 ≤ (materials.sample id i_ray p n).b ∧ (materials.sample id i_ray p n).b ≤ 1)) :
    (0 ≤ (reflection_rounded rnd i_ray scene materials max_reflect).r ∧
        (reflection_rounded rnd i_ray scene materials max_reflect).r ≤
          fp_t.fin (1 + 5 * (max_reflect.toNat : ℚ) * e) ∧
        (saturate (reflection_rounded rnd i_ray scene materials max_reflect).r =
            (reflection_rounded rnd i_ray scene materials max_reflect).r ∨
          (1 < (reflection_rounded rnd i_ray scene materials max_reflect).r ∧
            saturate (reflection_rounded rnd i_ray scene materials max_reflect).r = 1))) ∧
      (0 ≤ (reflection_rounded rnd i_ray scene materials max_reflect).g ∧
        (reflection_rounded rnd i_ray scene materials max_reflect).g ≤
          fp_t.fin (1 + 5 * (max_reflect.toNat : ℚ) * e) ∧
        (saturate (reflection_rounded rnd i_ray scene materials max_reflect).g =
            (reflection_rounded rnd i_ray scene materials max_reflect).g ∨
          (1 < (reflection_rounded rnd i_ray scene materials max_reflect).g ∧
            saturate (reflection_rounded rnd i_ray scene materials max_reflect).g = 1))) ∧
      (0 ≤ (reflection_rounded rnd i_ray scene materials max_reflect).b ∧
        (reflection_rounded rnd i_ray scene materials max_reflect).b ≤
          fp_t.fin (1 + 5 * (max_reflect.toNat : ℚ) * e) ∧
        (saturate (reflection_rounded rnd i_ray scene materials max_reflect).b =
            (reflection_rounded rnd i_ray scene materials max_reflect).b ∨
          (1 < (reflection_rounded rnd i_ray scene materials max_reflect).b ∧
            saturate (reflection_rounded rnd i_ray scene materials max_reflect).b = 1))) := by
  obtain ⟨g1, g2, g3, hg, b1, b2, b3⟩ :=
    reflection_loop_rounded_bound h herr scene materials max_reflect hN hr hs
      max_reflect.toNat 0 i_ray 0 0 0 1 (by omega) (by norm_num) (by norm_num)
      ⟨le_refl _, by norm_num⟩ ⟨le_refl _, by norm_num⟩ ⟨le_refl _, by norm_num⟩
  have hg2 : reflection_rounded rnd i_ray scene materials max_reflect =
      ⟨fp_t.fin g1, fp_t.fin g2, fp_t.fin g3⟩ := by
    rw [← hg]
    simp [reflection_rounded, fp_zero_def, fp_one_def]
  rw [hg2]
  simp only [fp_zero_def, fp_fin_le_fin]
  exact ⟨⟨b1.1, b1.2, saturate_of_nonneg b1.1⟩, ⟨b2.1, b2.2, saturate_of_nonneg b2.1⟩,
    ⟨b3.1, b3.2, saturate_of_nonneg b3.1⟩⟩

/-- Witness for C15 (amended): `float` arithmetic (`e = 2 ^ -24`), the bounce limit 3, the
scene and the materials of the counterexample: the red channel lies in
`[0, 1 + 15 / 2 ^ 24]`. -/
theorem reflection_rounded_bounds_witness :
    0 ≤ (reflection_rounded round32 ray0 scene_three mats_three 3).r ∧
      (reflection_rounded round32 ray0 scene_three mats_three 3).r ≤
        fp_t.fin (1 + 5 * (((3 : Int).toNat : Nat) : ℚ) * (1 / 2 ^ 24)) :=
  have h := reflection_rounded_bounds round32 is_rounding_round32 (1 / 2 ^ 24)
    round32_error_le ray0 scene_three mats_three 3
    (by have e : (3 : Int).toNat = 3 := rfl
        rw [e]; norm_num)
    mats_three_unit (fun _ _ _ _ => ⟨fp_one_unit, fp_one_unit, fp_one_unit⟩)
  ⟨h.1.1, h.1.2.1⟩

/-! ## The integrator with rounded operations: exact arithmetic -/

theorem fp_round_id (x : fp_t) : fp_t.round id x = x := by
  cases x <;> rfl

theorem color_rscale_id (c : color) (s : fp_t) : color.rscale id c s = c * s := by
  simp only [color.rscale, fp_round_id]
  rfl

theorem color_radd_id (a b : color) : color.radd id a b = a + b := by
  simp only [color.radd, fp_round_id]
  rfl

theorem bounce_direction_id (n d : vector3) :
    bounce_direction id n d = (n * (-2 * n.dot d)) + d := by
  simp only [bounce_direction, vector3.radd, vector3.rscale, vector3.rdot, fp_round_id]
  rfl

/-- With `rnd = id` the rounded loop is the loop of `reflection`. -/
theorem reflection_loop_rounded_id (scene : scene_storage) (materials : material_storage)
    (max_reflect : Int) :
    ∀ (d : Nat) (i : Int) (i_ray : ray) (final_color : color) (reflectiveness : fp_t)
      (calls : List call), (max_reflect - i).toNat = d →
      reflection_loop_rounded id scene materials max_reflect i i_ray final_color
          reflectiveness =
        (reflection_loop scene materials max_reflect i i_ray final_color reflectiveness
          calls).1 := by
  intro d
  induction d with
  | zero =>
    intro i i_ray f p calls hd
    have hnot : ¬ i < max_reflect := by omega
    rw [reflection_loop_rounded_done _ _ _ _ _ _ _ _ hnot,
      reflection_loop_done _ _ _ _ _ _ _ _ hnot]
  | succ d ih =>
    intro i i_ray f p calls hd
    have hlt : i < max_reflect := by omega
    by_cases hh : (scene.intersect i_ray).is_hit = true
    · by_cases hpos : p * materials.get_reflectiveness (scene.intersect i_ray).material > 0
      · rw [reflection_loop_rounded_continue _ _ _ _ _ _ _ _ hlt hh
            (by rw [fp_round_id]; exact hpos),
          reflection_loop_continue _ _ _ _ _ _ _ _ hlt hh hpos]
        simp only [fp_round_id, color_rscale_id, color_radd_id, bounce_direction_id]
        exact ih (i + 1) _ _ _ _ (by omega)
      · rw [reflection_loop_rounded_stop _ _ _ _ _ _ _ _ hlt hh
            (by rw [fp_round_id]; exact hpos),
          reflection_loop_stop _ _ _ _ _ _ _ _ hlt hh hpos]
        simp only [fp_round_id, color_rscale_id, color_radd_id]
    · have hm : (scene.intersect i_ray).is_hit = false := by simpa using hh
      rw [reflection_loop_rounded_miss _ _ _ _ _ _ _ _ hlt hm,
        reflection_loop_miss _ _ _ _ _ _ _ _ hlt hm]

/-- With `rnd = id` the rounded integrator is `reflection`. -/
theorem reflection_rounded_id (i_ray : ray) (scene : scene_storage)
    (materials : material_storage) (max_reflect : Int) :
    reflection_rounded id i_ray scene materials max_reflect =
      reflection i_ray scene materials max_reflect := by
  unfold reflection_rounded reflection reflection_run
  exact reflection_loop_rounded_id scene materials max_reflect _ 0 i_ray _ _ [] rfl

/-! ## Rounding to binary32: the values that are stored -/

theorem round_even_scaled_le {q : ℚ} (h : 0 < q) :
    round_even (q / 2 ^ ulp_exp32 q) ≤ 2 ^ 24 := by
  have hp : (0 : ℚ) < 2 ^ ulp_exp32 q := zpow_pos (by norm_num) _
  have hlog : q < (2 : ℚ) ^ (Int.log 2 q + 1) := by
    simpa using Int.lt_zpow_succ_log_self (by norm_num : 1 < 2) q
  have hE : Int.log 2 q + 1 ≤ ulp_exp32 q + 24 := by
    simp only [ulp_exp32, abs_of_pos h]
    have := le_max_left (Int.log 2 q) (-126)
    omega
  have hq : q ≤ (2 : ℚ) ^ (ulp_exp32 q + 24) :=
    le_trans (le_of_lt hlog) (zpow_le_zpow_right₀ (by norm_num) hE)
  have hdiv : q / 2 ^ ulp_exp32 q ≤ (((2 : Int) ^ 24 : Int) : ℚ) := by
    rw [div_le_iff₀ hp]
    push_cast
    rw [zpow_add_24] at hq
    linarith
  exact round_even_le hdiv

/-- The multiple of the unit in the last place that `round32` returns has at most 24
bits. -/
theorem round_even_scaled_abs_le (q : ℚ) : |round_even (q / 2 ^ ulp_exp32 q)| ≤ 2 ^ 24 := by
  rcases lt_trichotomy q 0 with hneg | hz | hpos
  · have h := round_even_scaled_le (neg_pos.mpr hneg)
    have h0 : (0 : Int) ≤ round_even (-q / 2 ^ ulp_exp32 (-q)) :=
      le_round_even (by
        have hp : (0 : ℚ) < 2 ^ ulp_exp32 (-q) := zpow_pos (by norm_num) _
        simpa using div_nonneg (le_of_lt (neg_pos.mpr hneg)) (le_of_lt hp))
    rw [ulp_exp32_neg, neg_div, round_even_neg] at h h0
    rw [abs_le]
    constructor <;> omega
  · rw [hz]
    simp [round_even]
  · have h := round_even_scaled_le hpos
    have h0 : (0 : Int) ≤ round_even (q / 2 ^ ulp_exp32 q) :=
      le_round_even (by
        have hp : (0 : ℚ) < 2 ^ ulp_exp32 q := zpow_pos (by norm_num) _
        simpa using div_nonneg (le_of_lt hpos) (le_of_lt hp))
    rw [abs_le]
    constructor <;> omega

theorem ulp_exp32_ge (q : ℚ) : -149 ≤ ulp_exp32 q := by
  simp only [ulp_exp32]
  have := le_max_right (Int.log 2 |q|) (-126)
  omega

/-- A number written with at most 24 significant bits is a binary32 value. -/
theorem round32_exact_le (m e : Int) (hm : |m| ≤ 2 ^ 24) (he : -149 ≤ e) :
    round32 ((m : ℚ) * (2 : ℚ) ^ e) = (m : ℚ) * (2 : ℚ) ^ e := by
  rcases lt_or_eq_of_le hm with hlt | heq
  · exact round32_exact_lt m e hlt he
  · obtain ⟨n, hn, hnm⟩ : ∃ n : Int, |n| < 2 ^ 24 ∧ m = 2 * n := by
      rcases abs_eq (by norm_num : (0 : Int) ≤ 2 ^ 24) |>.mp heq with h | h
      · exact ⟨2 ^ 23, by norm_num, by rw [h]; norm_num⟩
      · exact ⟨-2 ^ 23, by norm_num, by rw [h]; norm_num⟩
    have e2 : (m : ℚ) * (2 : ℚ) ^ e = (n : ℚ) * (2 : ℚ) ^ (e + 1) := by
      rw [hnm, zpow_add₀ (by norm_num)]
      push_cast
      ring
    rw [e2]
    exact round32_exact_lt n (e + 1) hn (by omega)

theorem round32_idem (x : ℚ) : round32 (round32 x) = round32 x := by
  have := round32_exact_le _ _ (round_even_scaled_abs_le x) (ulp_exp32_ge x)
  exact this

end RayTracing
